import Mathlib

/-!
# Detective Quest: clue ledger, suspect index, exploration and verdict

A shallow embedding of `Nivel_Mestre/Ultimo_Caso.c`, of the exploration loop of
`Nivel_Aventureiro/Detective_Quest_Pistas.c` (whose other functions are those
of the level Mestre) and of the exploration loop of
`Nivel_Novato/ Detective_Quest.c` (namespace `Novato`).

Conventions of the embedding.

* A text (`char*` pointing at a NUL-terminated string) is the list of its bytes
  before the terminator, each byte given as a number `1 .. 255`.  Every text of
  the program lives in a `char[100]` or `char[50]` buffer, so `strcpy` is the
  identity on the texts considered and the `int` sum of `funcaoHash` cannot
  overflow.
* A pointer to a node is the node itself; the null pointer is the constructor
  `nulo`.  `malloc` is taken to succeed.
* Whether the C type `char` is signed is fixed by the platform; it is the
  parameter `sc` (`true`: signed, as with gcc on x86) of the hash functions.
* An access `tabela[indice]` with `indice` outside `0 .. TAM_HASH - 1` has no
  defined behaviour: the functions of the hash table return `none` there.
-/

namespace DetectiveQuest

/-- A C string: its bytes before the terminating NUL. -/
abbrev Texto := List Nat

/-- Library function `strlen`. -/
def strlen (s : Texto) : Nat := s.length

/-- Library function `strcmp`: compares the two strings byte by byte as
`unsigned char`; the end of a string (its NUL) is below every byte.  Only the
sign of the result is specified by C, so the result is `-1`, `0` or `1`. -/
def strcmp : Texto → Texto → Int
  | [], [] => 0
  | [], _ :: _ => -1
  | _ :: _, [] => 1
  | a :: s, b :: t => if a < b then -1 else if b < a then 1 else strcmp s t

/-! ## The clue ledger (`PistaNode`, a binary search tree) -/

/-- A `PistaNode*`: null, or a node with its text and its two subtrees. -/
inductive PistaNode where
  | nulo : PistaNode
  | no (conteudo : Texto) (esquerda direita : PistaNode) : PistaNode
  deriving DecidableEq, Repr

/-- Function `inserirPista` (Ultimo_Caso.c 178-197, Detective_Quest_Pistas.c 144-167). -/
def inserirPista : PistaNode → Texto → PistaNode
  | .nulo, conteudo => .no conteudo .nulo .nulo
  | .no c esq dir, conteudo =>
    let cmp := strcmp conteudo c
    if cmp < 0 then .no c (inserirPista esq conteudo) dir
    else if cmp > 0 then .no c esq (inserirPista dir conteudo)
    else .no c esq dir

/-- Function `exibirPistas` (Ultimo_Caso.c 338-344): the texts in the order in
which they are printed, one per line. -/
def exibirPistas : PistaNode → List Texto
  | .nulo => []
  | .no c esq dir => exibirPistas esq ++ c :: exibirPistas dir

/-- The ledger after inserting the texts one by one, first to last, starting
from the ledger `raiz`. -/
def inserirPistas (raiz : PistaNode) (textos : List Texto) : PistaNode :=
  textos.foldl inserirPista raiz

/-- The number of nodes of a ledger. -/
def PistaNode.tamanho : PistaNode → Nat
  | .nulo => 0
  | .no _ esq dir => esq.tamanho + 1 + dir.tamanho

/-! ## The suspect index (`HashNode`, a chained hash table) -/

/-- A `HashNode*`: null, or a node with clue, suspect and the rest of the chain. -/
inductive HashNode where
  | nulo : HashNode
  | no (pista suspeito : Texto) (proximo : HashNode) : HashNode
  deriving DecidableEq, Repr

/-- Constant `TAM_HASH`. -/
def TAM_HASH : Nat := 31

/-- The array `HashNode* tabela[TAM_HASH]`. -/
abbrev Tabela := Fin TAM_HASH → HashNode

/-- The table of `main` before any insertion: `{NULL}`. -/
def tabelaVazia : Tabela := fun _ => .nulo

/-- The value of a byte read through the type `char` and promoted to `int`. -/
def charParaInt (sc : Bool) (b : Nat) : Int :=
  if sc && decide (128 ≤ b) then (b : Int) - 256 else (b : Int)

/-- The loop of `funcaoHash`: `soma += chave[i]` up to the terminator. -/
def somaChars (sc : Bool) : Int → Texto → Int
  | soma, [] => soma
  | soma, c :: resto => somaChars sc (soma + charParaInt sc c) resto

/-- Function `funcaoHash` (Ultimo_Caso.c 254-260); `%` of C truncates towards zero. -/
def funcaoHash (sc : Bool) (chave : Texto) : Int :=
  (somaChars sc 0 chave).tmod (TAM_HASH : Int)

/-- The element of the table that `tabela[indice]` designates, when there is one. -/
def posicao (indice : Int) : Option (Fin TAM_HASH) :=
  if h : 0 ≤ indice ∧ indice < (TAM_HASH : Int) then
    some ⟨indice.toNat, by omega⟩
  else none

/-- Function `inserirNaHash` (Ultimo_Caso.c 266-275): the new node goes to the
head of the chain of its bucket. -/
def inserirNaHash (sc : Bool) (tabela : Tabela) (pista suspeito : Texto) : Option Tabela :=
  match posicao (funcaoHash sc pista) with
  | none => none
  | some i => some (fun j => if j = i then .no pista suspeito (tabela i) else tabela j)

/-- The loop of `encontrarSuspeito` over one chain; `none` is the result `NULL`. -/
def buscarNaLista : HashNode → Texto → Option Texto
  | .nulo, _ => none
  | .no p s proximo, pista => if strcmp p pista = 0 then some s else buscarNaLista proximo pista

/-- Function `encontrarSuspeito` (Ultimo_Caso.c 281-292).  The outer option is
the bucket access, the inner one the returned pointer (`none` for `NULL`). -/
def encontrarSuspeito (sc : Bool) (tabela : Tabela) (pista : Texto) : Option (Option Texto) :=
  match posicao (funcaoHash sc pista) with
  | none => none
  | some i => some (buscarNaLista (tabela i) pista)

/-- The table after `inserirNaHash` on each pair (clue, suspect), first to last. -/
def inserirPares (sc : Bool) : Tabela → List (Texto × Texto) → Option Tabela
  | tabela, [] => some tabela
  | tabela, (p, s) :: resto =>
    match inserirNaHash sc tabela p s with
    | none => none
    | some t => inserirPares sc t resto

/-! ## The verdict -/

/-- Function `contarPistasSuspeito` (Ultimo_Caso.c 295-309). -/
def contarPistasSuspeito (sc : Bool) (tabela : Tabela) (suspeitoAlvo : Texto) :
    PistaNode → Option Nat
  | .nulo => some 0
  | .no conteudo esq dir =>
    match encontrarSuspeito sc tabela conteudo with
    | none => none
    | some suspeitoDaPista =>
      let contador : Nat :=
        match suspeitoDaPista with
        | none => 0
        | some s => if strcmp s suspeitoAlvo = 0 then 1 else 0
      match contarPistasSuspeito sc tabela suspeitoAlvo esq,
            contarPistasSuspeito sc tabela suspeitoAlvo dir with
      | some a, some b => some (contador + a + b)
      | _, _ => none

/-- The two verdicts printed by `verificarSuspeitoFinal`: `[VEREDITO] CULPADO!`
and `[VEREDITO] INOCENTE (por falta de provas)!`. -/
inductive Veredito where
  | culpado
  | inocente
  deriving DecidableEq, Repr

/-- Function `verificarSuspeitoFinal` (Ultimo_Caso.c 315-334): the number of
proofs it prints and the verdict it prints. -/
def verificarSuspeitoFinal (sc : Bool) (raizPistas : PistaNode) (tabela : Tabela)
    (suspeitoAcusado : Texto) : Option (Nat × Veredito) :=
  match contarPistasSuspeito sc tabela suspeitoAcusado raizPistas with
  | none => none
  | some qtdProvas =>
    if qtdProvas ≥ 2 then some (qtdProvas, .culpado) else some (qtdProvas, .inocente)

/-! ## The mansion and its exploration -/

/-- A `Sala*`: null, or a room with name, clue and its two exits. -/
inductive Sala where
  | nulo : Sala
  | no (nome pista : Texto) (esquerda direita : Sala) : Sala
  deriving DecidableEq, Repr

/-- Function `criarSala` (Ultimo_Caso.c 154-171): a room without exits. -/
def criarSala (nome pista : Texto) : Sala := .no nome pista .nulo .nulo

/-- The test `sala == NULL`. -/
def Sala.ehNulo : Sala → Bool
  | .nulo => true
  | .no _ _ _ _ => false

/-- The name of a room (the empty text for the null pointer). -/
def Sala.nomeDe : Sala → Texto
  | .nulo => []
  | .no nome _ _ _ => nome

/-- Library function `isspace` in the C locale. -/
def isspace (c : Nat) : Bool := c == 32 || (9 ≤ c && c ≤ 13)

/-- The call `scanf(" %c", &opcao)`: skips white space and stores the next
byte in `opcao`; at the end of the input `opcao` keeps its value.  Returns the
value of `opcao` after the call and the input that remains. -/
def scanfChar (entrada : List Nat) (opcao : Nat) : Nat × List Nat :=
  match entrada.dropWhile isspace with
  | [] => (opcao, [])
  | c :: resto => (c, resto)

/-- The variables of the loop of `explorarSalas`: the current room, the root
of the ledger (`*raizPistas`), the variable `opcao` and the input not yet read. -/
structure Estado where
  salaAtual : Sala
  raizPistas : PistaNode
  opcao : Nat
  entrada : List Nat
  deriving DecidableEq, Repr

/-- How the loop of `explorarSalas` is left: through the test of the `while`
(null room), through the `break` of a room without exits, or through the
`break` of the option `s`. -/
inductive Fim where
  | semSala
  | becoSemSaida
  | saiu
  deriving DecidableEq, Repr

/-- What an iteration that stays in the loop has printed after reading the option:
nothing when it moved, `[!] Caminho bloqueado.` or `[!] Opção inválida.`. -/
inductive Aviso where
  | moveuEsquerda
  | moveuDireita
  | caminhoBloqueado
  | opcaoInvalida
  deriving DecidableEq, Repr

/-- The outcome of one iteration of the loop. -/
inductive Passo where
  | continua (aviso : Aviso) (estado : Estado)
  | fim (motivo : Fim) (estado : Estado)
  deriving DecidableEq, Repr

/-- The clue collection of `explorarSalas` (Ultimo_Caso.c 211-217): the clue of
the room is inserted when `strlen(salaAtual->pista) > 0`. -/
def coletarPista (pista : Texto) (raizPistas : PistaNode) : PistaNode :=
  if strlen pista > 0 then inserirPista raizPistas pista else raizPistas

/-- One iteration of the `while` of `explorarSalas` (Ultimo_Caso.c 206-249). -/
def passo (s : Estado) : Passo :=
  match s.salaAtual with
  | .nulo => .fim .semSala s
  | .no _ pista esq dir =>
    let raiz := coletarPista pista s.raizPistas
    if esq.ehNulo && dir.ehNulo then
      .fim .becoSemSaida { s with raizPistas := raiz }
    else
      let lido := scanfChar s.entrada s.opcao
      let opcao := lido.1
      let s1 : Estado := { s with raizPistas := raiz, opcao := opcao, entrada := lido.2 }
      if opcao = 101 ∨ opcao = 69 then
        if !esq.ehNulo then .continua .moveuEsquerda { s1 with salaAtual := esq }
        else .continua .caminhoBloqueado s1
      else if opcao = 100 ∨ opcao = 68 then
        if !dir.ehNulo then .continua .moveuDireita { s1 with salaAtual := dir }
        else .continua .caminhoBloqueado s1
      else if opcao = 115 ∨ opcao = 83 then .fim .saiu s1
      else .continua .opcaoInvalida s1

/-- What a finished run of `explorarSalas` leaves: how the loop was left, the
variables at that point and the notices printed, one per completed iteration. -/
structure Resultado where
  motivo : Fim
  estado : Estado
  avisos : List Aviso
  deriving DecidableEq, Repr

/-- The loop of `explorarSalas`, run for at most `n` iterations; `none` when
the loop is still running after them. -/
def laco : Nat → Estado → Option Resultado
  | 0, _ => none
  | n + 1, s =>
    match passo s with
    | .fim motivo s1 => some ⟨motivo, s1, []⟩
    | .continua aviso s1 =>
      match laco n s1 with
      | none => none
      | some r => some { r with avisos := aviso :: r.avisos }

/-- Function `explorarSalas` (Ultimo_Caso.c 203-250) run for at most `n`
iterations, from the room `mapa` with the ledger `raizPistas`; `opcao` is the
value that the uninitialised variable `opcao` happens to hold. -/
def explorarSalas (n : Nat) (mapa : Sala) (raizPistas : PistaNode) (opcao : Nat)
    (entrada : List Nat) : Option Resultado :=
  laco n ⟨mapa, raizPistas, opcao, entrada⟩

/-! ## The configuration of `main` (Ultimo_Caso.c 81-107) -/

/-- Text "Pegadas de lama no chão" (UTF-8). -/
def pegadas : Texto :=
  [80, 101, 103, 97, 100, 97, 115, 32, 100, 101, 32, 108, 97, 109, 97, 32, 110, 111, 32,
   99, 104, 195, 163, 111]

/-- Text "Relógio parado às 10h" (UTF-8). -/
def relogio : Texto :=
  [82, 101, 108, 195, 179, 103, 105, 111, 32, 112, 97, 114, 97, 100, 111, 32, 195, 160,
   115, 32, 49, 48, 104]

/-- Text "Livro de venenos aberto". -/
def livro : Texto :=
  [76, 105, 118, 114, 111, 32, 100, 101, 32, 118, 101, 110, 101, 110, 111, 115, 32, 97,
   98, 101, 114, 116, 111]

/-- Text "Terra revirada recente". -/
def terra : Texto :=
  [84, 101, 114, 114, 97, 32, 114, 101, 118, 105, 114, 97, 100, 97, 32, 114, 101, 99,
   101, 110, 116, 101]

/-- Text "Taça de vinho quebrada" (UTF-8). -/
def taca : Texto :=
  [84, 97, 195, 167, 97, 32, 100, 101, 32, 118, 105, 110, 104, 111, 32, 113, 117, 101,
   98, 114, 97, 100, 97]

/-- Text "Chave enferrujada antiga". -/
def chave : Texto :=
  [67, 104, 97, 118, 101, 32, 101, 110, 102, 101, 114, 114, 117, 106, 97, 100, 97, 32,
   97, 110, 116, 105, 103, 97]

/-- Text "Jardineiro". -/
def jardineiro : Texto := [74, 97, 114, 100, 105, 110, 101, 105, 114, 111]

/-- Text "Mordomo". -/
def mordomo : Texto := [77, 111, 114, 100, 111, 109, 111]

/-- Text "Governanta". -/
def governanta : Texto := [71, 111, 118, 101, 114, 110, 97, 110, 116, 97]

/-- Room "Biblioteca". -/
def biblioteca : Sala :=
  criarSala [66, 105, 98, 108, 105, 111, 116, 101, 99, 97] livro

/-- Room "Jardim de Inverno". -/
def jardimDeInverno : Sala :=
  criarSala [74, 97, 114, 100, 105, 109, 32, 100, 101, 32, 73, 110, 118, 101, 114, 110, 111]
    terra

/-- Room "Sala de Jantar". -/
def salaDeJantar : Sala :=
  criarSala [83, 97, 108, 97, 32, 100, 101, 32, 74, 97, 110, 116, 97, 114] taca

/-- Room "Porão" (UTF-8). -/
def porao : Sala := criarSala [80, 111, 114, 195, 163, 111] chave

/-- Room "Sala de Estar" with its two exits. -/
def salaDeEstar : Sala :=
  .no [83, 97, 108, 97, 32, 100, 101, 32, 69, 115, 116, 97, 114] relogio
    biblioteca jardimDeInverno

/-- Room "Cozinha", without clue, with its two exits. -/
def cozinha : Sala :=
  .no [67, 111, 122, 105, 110, 104, 97] [] salaDeJantar porao

/-- The mansion of `main`: room "Hall de Entrada" with its two exits. -/
def mansao : Sala :=
  .no [72, 97, 108, 108, 32, 100, 101, 32, 69, 110, 116, 114, 97, 100, 97] pegadas
    salaDeEstar cozinha

/-- The six associations of `main`, in the order of the calls of `inserirNaHash`. -/
def gabarito : List (Texto × Texto) :=
  [(pegadas, jardineiro), (terra, jardineiro), (relogio, mordomo), (taca, mordomo),
   (livro, governanta), (chave, governanta)]

/-- The table `tabelaSuspeitos` of `main` after the six calls of `inserirNaHash`. -/
def tabelaSuspeitos (sc : Bool) : Option Tabela := inserirPares sc tabelaVazia gabarito

/-! ## Notions used to state the properties -/

/-- A list of texts is strictly ascending under `strcmp`. -/
def Ascendente (l : List Texto) : Prop := l.Pairwise (fun a b => strcmp a b < 0)

/-- The order of `strcmp` read as "not above". -/
def naoAcima (a b : Texto) : Prop := strcmp a b ≤ 0

instance : DecidableRel naoAcima := fun a b => inferInstanceAs (Decidable (strcmp a b ≤ 0))

/-- The sorted, deduplicated list of the texts: the texts without repetition,
sorted by `strcmp`. -/
def ordenadoSemRepeticao (textos : List Texto) : List Texto :=
  (textos.dedup).insertionSort naoAcima

/-- The table `tabelaSuspeitos` of `main` as a table: every one of the six
insertions stays inside the array (`tabelaSuspeitos_eq`). -/
def tabelaDoJogo (sc : Bool) : Tabela := (tabelaSuspeitos sc).getD tabelaVazia

/-- The clue of a room (the empty text for the null pointer). -/
def Sala.pistaDe : Sala → Texto
  | .nulo => []
  | .no _ pista _ _ => pista

/-- The exits of a room that are not null. -/
def Sala.saidas : Sala → List Sala
  | .nulo => []
  | .no _ _ esq dir => (if esq.ehNulo then [] else [esq]) ++ (if dir.ehNulo then [] else [dir])

/-- The rooms of the mansion of `main`, each with the ledger that a run holds
once the clue of that room has been collected. -/
def situacoesDaMansao : List (Sala × PistaNode) :=
  [(mansao, inserirPistas .nulo [pegadas]),
   (salaDeEstar, inserirPistas .nulo [pegadas, relogio]),
   (cozinha, inserirPistas .nulo [pegadas]),
   (biblioteca, inserirPistas .nulo [pegadas, relogio, livro]),
   (jardimDeInverno, inserirPistas .nulo [pegadas, relogio, terra]),
   (salaDeJantar, inserirPistas .nulo [pegadas, taca]),
   (porao, inserirPistas .nulo [pegadas, chave])]

/-- Whether the result of `encontrarSuspeito` is a suspect textually equal to the target. -/
def apontaPara (suspeitoAlvo : Texto) : Option Texto → Bool
  | none => false
  | some s => decide (s = suspeitoAlvo)

/-- The suspect that the associations of `main` give to a clue. -/
def suspeitoNoGabarito (c : Texto) : Option Texto :=
  (gabarito.find? (fun p => p.1 = c)).map Prod.snd

/-- The result of the run of `explorarSalas` on the options `e`, `d` in the
mansion of `main`: it ends in the room "Jardim de Inverno". -/
def runEsquerdaDireita : Resultado :=
  ⟨.becoSemSaida, ⟨jardimDeInverno, inserirPistas .nulo [pegadas, relogio, terra], 100, []⟩,
    [.moveuEsquerda, .moveuDireita]⟩

/-- The left exit of a room (`sala->esquerda`; null for the null pointer). -/
def Sala.esq : Sala → Sala
  | .nulo => .nulo
  | .no _ _ esquerda _ => esquerda

/-- The right exit of a room (`sala->direita`; null for the null pointer). -/
def Sala.dir : Sala → Sala
  | .nulo => .nulo
  | .no _ _ _ direita => direita

/-- A room without exits: the test `esquerda == NULL && direita == NULL`. -/
def Sala.ehFolha : Sala → Bool
  | .nulo => false
  | .no _ _ esquerda direita => esquerda.ehNulo && direita.ehNulo

/-- The number of rooms on the longest way down from a room (0 for the null pointer). -/
def Sala.niveis : Sala → Nat
  | .nulo => 0
  | .no _ _ esquerda direita => 1 + max esquerda.niveis direita.niveis

/-- The depth of a room tree: the number of moves on its longest way down. -/
def Sala.profundidade (sala : Sala) : Nat := sala.niveis - 1

/-- The clues of all the rooms of a tree. -/
def Sala.pistas : Sala → List Texto
  | .nulo => []
  | .no _ pista esquerda direita => pista :: (esquerda.pistas ++ direita.pistas)

/-- An iteration that moved to another room. -/
def Aviso.ehMovimento : Aviso → Bool
  | .moveuEsquerda => true
  | .moveuDireita => true
  | _ => false

/-- An iteration whose option was rejected: blocked path or invalid option. -/
def Aviso.ehRejeicao : Aviso → Bool
  | .caminhoBloqueado => true
  | .opcaoInvalida => true
  | _ => false

/-- The rooms that a run visits, first to last, read off the notices of its
iterations: a move goes to the exit taken, a rejection stays. -/
def visitadas : Sala → List Aviso → List Sala
  | .nulo, _ => []
  | sala, [] => [sala]
  | sala, .moveuEsquerda :: avisos => sala :: visitadas sala.esq avisos
  | sala, .moveuDireita :: avisos => sala :: visitadas sala.dir avisos
  | sala, _ :: avisos => visitadas sala avisos

/-- The call `scanf(" %c", &opcao)` finds the end of the input: only white
space is left. -/
def fimDaEntrada (entrada : List Nat) : Prop := entrada.dropWhile isspace = []

instance (entrada : List Nat) : Decidable (fimDaEntrada entrada) :=
  inferInstanceAs (Decidable (entrada.dropWhile isspace = []))

/-- The option held in `opcao` is rejected at the room: neither an exit that
exists nor the option `s`. -/
def opcaoRejeitada (sala : Sala) (opcao : Nat) : Prop :=
  ¬ ((opcao = 101 ∨ opcao = 69) ∧ sala.esq.ehNulo = false) ∧
  ¬ ((opcao = 100 ∨ opcao = 68) ∧ sala.dir.ehNulo = false) ∧
  ¬ (opcao = 115 ∨ opcao = 83)

/-- A state from which the loop cannot leave: the room has an exit, the input
has ended and the option held in `opcao` is rejected at the room. -/
def Preso (s : Estado) : Prop :=
  s.salaAtual.ehNulo = false ∧ s.salaAtual.ehFolha = false ∧ fimDaEntrada s.entrada ∧
    opcaoRejeitada s.salaAtual s.opcao

/-- The variables of the loop after `k` iterations that stayed in the loop. -/
def estadoApos : Nat → Estado → Option Estado
  | 0, s => some s
  | k + 1, s =>
    match passo s with
    | .continua _ s1 => estadoApos k s1
    | .fim _ _ => none

/-- One room follows another on a way down: it is a non-null exit of it. -/
def ehSaidaDe (a b : Sala) : Prop := b.ehNulo = false ∧ (b = a.esq ∨ b = a.dir)

/-- The clue texts that a run collects in the rooms it visits: the non-empty ones. -/
def pistasVisitadas (salas : List Sala) : List Texto :=
  (salas.map Sala.pistaDe).filter (fun p => decide (strlen p > 0))

/-! ## The level Aventureiro (`Detective_Quest_Pistas.c`) -/

/-- One iteration of the `while` of `explorarSalasComPistas`
(Detective_Quest_Pistas.c 177-231); the notice of the blocked path is
`[!] Caminho bloqueado ou inexistente.`. -/
def passoComPistas (s : Estado) : Passo :=
  match s.salaAtual with
  | .nulo => .fim .semSala s
  | .no _ pista esq dir =>
    let raiz := if strlen pista > 0 then inserirPista s.raizPistas pista else s.raizPistas
    if esq.ehNulo && dir.ehNulo then
      .fim .becoSemSaida { s with raizPistas := raiz }
    else
      let lido := scanfChar s.entrada s.opcao
      let opcao := lido.1
      let s1 : Estado := { s with raizPistas := raiz, opcao := opcao, entrada := lido.2 }
      if opcao = 101 ∨ opcao = 69 then
        if !esq.ehNulo then .continua .moveuEsquerda { s1 with salaAtual := esq }
        else .continua .caminhoBloqueado s1
      else if opcao = 100 ∨ opcao = 68 then
        if !dir.ehNulo then .continua .moveuDireita { s1 with salaAtual := dir }
        else .continua .caminhoBloqueado s1
      else if opcao = 115 ∨ opcao = 83 then .fim .saiu s1
      else .continua .opcaoInvalida s1

/-- The loop of `explorarSalasComPistas`, run for at most `n` iterations. -/
def lacoComPistas : Nat → Estado → Option Resultado
  | 0, _ => none
  | n + 1, s =>
    match passoComPistas s with
    | .fim motivo s1 => some ⟨motivo, s1, []⟩
    | .continua aviso s1 =>
      match lacoComPistas n s1 with
      | none => none
      | some r => some { r with avisos := aviso :: r.avisos }

/-- Function `explorarSalasComPistas` (Detective_Quest_Pistas.c 174-232) run for
at most `n` iterations; `opcao` is the value that the uninitialised variable
`opcao` happens to hold. -/
def explorarSalasComPistas (n : Nat) (mapa : Sala) (raizPistas : PistaNode) (opcao : Nat)
    (entrada : List Nat) : Option Resultado :=
  lacoComPistas n ⟨mapa, raizPistas, opcao, entrada⟩

/-! ## The level Novato (` Detective_Quest.c`) -/

namespace Novato

/-- A `Sala*` of the level Novato: null, or a room with name and its two exits
(the rooms of this level have no clue). -/
inductive Sala where
  | nulo : Sala
  | no (nome : Texto) (esquerda direita : Sala) : Sala
  deriving DecidableEq, Repr

/-- Function `criarSala` ( Detective_Quest.c 82-92): a room without exits. -/
def criarSala (nome : Texto) : Sala := .no nome .nulo .nulo

/-- The test `sala == NULL`. -/
def Sala.ehNulo : Sala → Bool
  | .nulo => true
  | .no _ _ _ => false

/-- The left exit of a room (null for the null pointer). -/
def Sala.esq : Sala → Sala
  | .nulo => .nulo
  | .no _ esquerda _ => esquerda

/-- The right exit of a room (null for the null pointer). -/
def Sala.dir : Sala → Sala
  | .nulo => .nulo
  | .no _ _ direita => direita

/-- The variables of the loop of `explorarSalas`: the current room, the variable
`opcao` and the input not yet read. -/
structure Estado where
  atual : Sala
  opcao : Nat
  entrada : List Nat
  deriving DecidableEq, Repr

/-- The outcome of one iteration of the loop. -/
inductive Passo where
  | continua (aviso : Aviso) (estado : Estado)
  | fim (motivo : Fim) (estado : Estado)
  deriving DecidableEq, Repr

/-- One iteration of the `while` of `explorarSalas` ( Detective_Quest.c 103-136);
the notices are `[!] Não há caminho para a esquerda.` (or `direita`), both the
blocked path, and `[!] Opção inválida. Tente novamente.`. -/
def passo (s : Estado) : Passo :=
  match s.atual with
  | .nulo => .fim .semSala s
  | .no _ esq dir =>
    if esq.ehNulo && dir.ehNulo then .fim .becoSemSaida s
    else
      let lido := scanfChar s.entrada s.opcao
      let opcao := lido.1
      let s1 : Estado := { s with opcao := opcao, entrada := lido.2 }
      if opcao = 101 ∨ opcao = 69 then
        if !esq.ehNulo then .continua .moveuEsquerda { s1 with atual := esq }
        else .continua .caminhoBloqueado s1
      else if opcao = 100 ∨ opcao = 68 then
        if !dir.ehNulo then .continua .moveuDireita { s1 with atual := dir }
        else .continua .caminhoBloqueado s1
      else if opcao = 115 ∨ opcao = 83 then .fim .saiu s1
      else .continua .opcaoInvalida s1

/-- What a finished run of `explorarSalas` leaves: how the loop was left, the
variables at that point and the notices printed, one per completed iteration. -/
structure Resultado where
  motivo : Fim
  estado : Estado
  avisos : List Aviso
  deriving DecidableEq, Repr

/-- The loop of `explorarSalas`, run for at most `n` iterations; `none` when
the loop is still running after them. -/
def laco : Nat → Estado → Option Resultado
  | 0, _ => none
  | n + 1, s =>
    match passo s with
    | .fim motivo s1 => some ⟨motivo, s1, []⟩
    | .continua aviso s1 =>
      match laco n s1 with
      | none => none
      | some r => some { r with avisos := aviso :: r.avisos }

/-- Function `explorarSalas` ( Detective_Quest.c 100-137) run for at most `n`
iterations from the room `raiz`; `opcao` is the value that the uninitialised
variable `opcao` happens to hold. -/
def explorarSalas (n : Nat) (raiz : Sala) (opcao : Nat) (entrada : List Nat) :
    Option Resultado :=
  laco n ⟨raiz, opcao, entrada⟩

/-- The mansion of `main` of the level Novato ( Detective_Quest.c 43-56); its
last room is "Porão Escuro". -/
def mapa : Sala :=
  .no [72, 97, 108, 108, 32, 100, 101, 32, 69, 110, 116, 114, 97, 100, 97]
    (.no [83, 97, 108, 97, 32, 100, 101, 32, 69, 115, 116, 97, 114]
      (criarSala [66, 105, 98, 108, 105, 111, 116, 101, 99, 97])
      (criarSala [74, 97, 114, 100, 105, 109, 32, 100, 101, 32, 73, 110, 118, 101, 114, 110, 111]))
    (.no [67, 111, 122, 105, 110, 104, 97]
      (criarSala [83, 97, 108, 97, 32, 100, 101, 32, 74, 97, 110, 116, 97, 114])
      (criarSala [80, 111, 114, 195, 163, 111, 32, 69, 115, 99, 117, 114, 111]))

end Novato

/-- The room tree of a level with clues as a tree of the level Novato: same
rooms and names, the clues left out. -/
def semPistas : Sala → Novato.Sala
  | .nulo => .nulo
  | .no nome _ esq dir => .no nome (semPistas esq) (semPistas dir)

/-- The two room trees have the same shape (names and clues apart). -/
def mesmaForma : Sala → Novato.Sala → Bool
  | .nulo, .nulo => true
  | .no _ _ esq dir, .no _ esqN dirN => mesmaForma esq esqN && mesmaForma dir dirN
  | _, _ => false

/-- The room reached from a room by the moves among the notices of a run. -/
def seguir : Sala → List Aviso → Sala
  | sala, [] => sala
  | sala, .moveuEsquerda :: avisos => seguir sala.esq avisos
  | sala, .moveuDireita :: avisos => seguir sala.dir avisos
  | sala, _ :: avisos => seguir sala avisos

/-- The room of the level Novato reached by the moves among the notices of a run. -/
def seguirNovato : Novato.Sala → List Aviso → Novato.Sala
  | sala, [] => sala
  | sala, .moveuEsquerda :: avisos => seguirNovato sala.esq avisos
  | sala, .moveuDireita :: avisos => seguirNovato sala.dir avisos
  | sala, _ :: avisos => seguirNovato sala avisos

/-- The state of the level Novato that goes with a state of the level Mestre:
same position, same `opcao`, same input. -/
def Corresponde (s : Estado) (sn : Novato.Estado) : Prop :=
  mesmaForma s.salaAtual sn.atual = true ∧ s.opcao = sn.opcao ∧ s.entrada = sn.entrada

/-- The outcomes of one iteration in the two levels go together. -/
def PassoCorresponde : Passo → Novato.Passo → Prop
  | .continua a s1, .continua an sn1 => a = an ∧ Corresponde s1 sn1
  | .fim m s1, .fim mn sn1 => m = mn ∧ Corresponde s1 sn1
  | _, _ => False

/-- The results of the runs of the two levels go together: both still running,
or both finished in the same way with the same notices and states that go
together. -/
def ResultadoCorresponde : Option Resultado → Option Novato.Resultado → Prop
  | some r, some rn => r.motivo = rn.motivo ∧ r.avisos = rn.avisos ∧ Corresponde r.estado rn.estado
  | none, none => True
  | _, _ => False

/-- A table with the associations "ab" to "X" and "ba" to "Y", two clues of
the same bucket. -/
def tabelaComColisao : Tabela :=
  (inserirPares true tabelaVazia [([97, 98], [88]), ([98, 97], [89])]).getD tabelaVazia

/-- The table `tabelaComColisao` after "ab" is associated again, with "Z". -/
def tabelaReassociada : Tabela :=
  (inserirNaHash true tabelaComColisao [97, 98] [90]).getD tabelaVazia

/-- The result of the run of the level Mestre on the options `d`, `d` in the
mansion of `main`: it ends in the room "Porão". -/
def runDireitaDireita : Resultado :=
  ⟨.becoSemSaida, ⟨porao, inserirPistas .nulo [pegadas, chave], 100, []⟩,
    [.moveuDireita, .moveuDireita]⟩

/-- The result of the run of the level Novato on the options `d`, `d` in its
mansion: it ends in the room "Porão Escuro". -/
def runDireitaDireitaNovato : Novato.Resultado :=
  ⟨.becoSemSaida,
    ⟨Novato.criarSala [80, 111, 114, 195, 163, 111, 32, 69, 115, 99, 117, 114, 111], 100, []⟩,
    [.moveuDireita, .moveuDireita]⟩

/-! ## The order of `strcmp` and the ordered ledger -/

theorem strcmp_self (a : Texto) : strcmp a a = 0 := by
  induction a with
  | nil => rfl
  | cons x s ih => simp [strcmp, ih]

theorem eq_of_strcmp_eq_zero : ∀ (a b : Texto), strcmp a b = 0 → a = b
  | [], [], _ => rfl
  | [], _ :: _, h => by simp [strcmp] at h
  | _ :: _, [], h => by simp [strcmp] at h
  | x :: s, y :: t, h => by
    unfold strcmp at h
    split_ifs at h with h1 h2
    · exact absurd h (by decide)
    · have hxy : x = y := by omega
      rw [hxy, eq_of_strcmp_eq_zero s t h]

theorem strcmp_eq_zero_iff (a b : Texto) : strcmp a b = 0 ↔ a = b :=
  ⟨eq_of_strcmp_eq_zero a b, fun h => h ▸ strcmp_self a⟩

theorem strcmp_pos_iff : ∀ (a b : Texto), 0 < strcmp a b ↔ strcmp b a < 0
  | [], [] => by simp [strcmp]
  | [], _ :: _ => by simp [strcmp]
  | _ :: _, [] => by simp [strcmp]
  | x :: s, y :: t => by
    unfold strcmp
    have ih := strcmp_pos_iff s t
    split_ifs <;> omega

theorem strcmp_trans : ∀ (a b c : Texto), strcmp a b < 0 → strcmp b c < 0 → strcmp a c < 0
  | [], [], _, h, _ => by simp [strcmp] at h
  | [], _ :: _, [], _, h => by simp [strcmp] at h
  | [], _ :: _, _ :: _, _, _ => by simp [strcmp]
  | _ :: _, [], _, h, _ => by simp [strcmp] at h
  | _ :: _, _ :: _, [], _, h => by simp [strcmp] at h
  | x :: s, y :: t, z :: u, h1, h2 => by
    unfold strcmp at h1 h2 ⊢
    have ih := strcmp_trans s t u
    split_ifs at h1 h2 ⊢ <;> omega


theorem mem_exibirPistas_inserirPista (raiz : PistaNode) (c t : Texto) :
    t ∈ exibirPistas (inserirPista raiz c) ↔ t = c ∨ t ∈ exibirPistas raiz := by
  induction raiz with
  | nulo => simp [inserirPista, exibirPistas]
  | no k esq dir ihe ihd =>
    simp only [inserirPista]
    split_ifs with h1 h2
    · simp only [exibirPistas, List.mem_append, List.mem_cons, ihe]; tauto
    · simp only [exibirPistas, List.mem_append, List.mem_cons, ihd]; tauto
    · have hck : c = k := eq_of_strcmp_eq_zero c k (by omega)
      subst hck
      simp only [exibirPistas, List.mem_append, List.mem_cons]; tauto

/-- Function `inserirPista` keeps the in-order sequence strictly ascending. -/
theorem ascendente_inserirPista (raiz : PistaNode) (c : Texto)
    (h : Ascendente (exibirPistas raiz)) : Ascendente (exibirPistas (inserirPista raiz c)) := by
  induction raiz with
  | nulo => simp [inserirPista, exibirPistas, Ascendente]
  | no k esq dir ihe ihd =>
    simp only [exibirPistas, Ascendente, List.pairwise_append, List.pairwise_cons,
      List.mem_cons] at h
    obtain ⟨he, ⟨hkd, hd⟩, hx⟩ := h
    simp only [inserirPista]
    split_ifs with h1 h2
    · simp only [exibirPistas, Ascendente, List.pairwise_append, List.pairwise_cons,
        List.mem_cons]
      refine ⟨ihe he, ⟨hkd, hd⟩, ?_⟩
      intro a ha b hb
      rcases (mem_exibirPistas_inserirPista esq c a).1 ha with rfl | ha
      · rcases hb with rfl | hb
        · exact h1
        · exact strcmp_trans _ _ _ h1 (hkd b hb)
      · exact hx a ha b hb
    · have hkc : strcmp k c < 0 := (strcmp_pos_iff c k).1 h2
      simp only [exibirPistas, Ascendente, List.pairwise_append, List.pairwise_cons,
        List.mem_cons]
      refine ⟨he, ⟨?_, ihd hd⟩, ?_⟩
      · intro b hb
        rcases (mem_exibirPistas_inserirPista dir c b).1 hb with rfl | hb
        · exact hkc
        · exact hkd b hb
      · intro a ha b hb
        rcases hb with rfl | hb
        · exact hx a ha b (Or.inl rfl)
        · rcases (mem_exibirPistas_inserirPista dir c b).1 hb with rfl | hb
          · exact strcmp_trans _ _ _ (hx a ha k (Or.inl rfl)) hkc
          · exact hx a ha b (Or.inr hb)
    · simp only [exibirPistas, Ascendente, List.pairwise_append, List.pairwise_cons,
        List.mem_cons]
      exact ⟨he, ⟨hkd, hd⟩, hx⟩

theorem ascendente_inserirPistas (textos : List Texto) (raiz : PistaNode)
    (h : Ascendente (exibirPistas raiz)) :
    Ascendente (exibirPistas (inserirPistas raiz textos)) := by
  induction textos generalizing raiz with
  | nil => exact h
  | cons c resto ih => exact ih _ (ascendente_inserirPista raiz c h)

theorem mem_exibirPistas_inserirPistas (textos : List Texto) (raiz : PistaNode) (t : Texto) :
    t ∈ exibirPistas (inserirPistas raiz textos) ↔ t ∈ textos ∨ t ∈ exibirPistas raiz := by
  induction textos generalizing raiz with
  | nil => simp [inserirPistas]
  | cons c resto ih =>
    have := ih (inserirPista raiz c)
    simp only [inserirPistas, List.foldl_cons] at this ⊢
    rw [this, mem_exibirPistas_inserirPista, List.mem_cons]
    tauto

theorem nodup_of_ascendente (l : List Texto) (h : Ascendente l) : l.Nodup := by
  refine List.Pairwise.imp ?_ h
  intro a b hab heq
  rw [heq, strcmp_self] at hab
  exact absurd hab (by decide)

/-- Inserting a text that an ordered ledger already holds returns the ledger. -/
theorem inserirPista_of_mem (raiz : PistaNode) (c : Texto)
    (h : Ascendente (exibirPistas raiz)) (hc : c ∈ exibirPistas raiz) :
    inserirPista raiz c = raiz := by
  induction raiz with
  | nulo => simp [exibirPistas] at hc
  | no k esq dir ihe ihd =>
    simp only [exibirPistas, Ascendente, List.pairwise_append, List.pairwise_cons,
      List.mem_cons] at h
    obtain ⟨he, ⟨hkd, hd⟩, hx⟩ := h
    simp only [exibirPistas, List.mem_append, List.mem_cons] at hc
    simp only [inserirPista]
    rcases hc with hc | rfl | hc
    · have h1 : strcmp c k < 0 := hx c hc k (Or.inl rfl)
      rw [if_pos h1, ihe he hc]
    · rw [strcmp_self]; simp
    · have h1 : strcmp k c < 0 := hkd c hc
      have h2 : 0 < strcmp c k := (strcmp_pos_iff c k).2 h1
      rw [if_neg (by omega), if_pos (by omega), ihd hd hc]


theorem naoAcima_total (a b : Texto) : naoAcima a b ∨ naoAcima b a := by
  unfold naoAcima
  have := strcmp_pos_iff a b
  omega

theorem naoAcima_trans (a b c : Texto) (h1 : naoAcima a b) (h2 : naoAcima b c) :
    naoAcima a c := by
  unfold naoAcima at *
  by_cases hab : strcmp a b = 0
  · rw [eq_of_strcmp_eq_zero a b hab]; exact h2
  · by_cases hbc : strcmp b c = 0
    · rw [← eq_of_strcmp_eq_zero b c hbc]; exact h1
    · have := strcmp_trans a b c (by omega) (by omega)
      omega

theorem naoAcima_antisymm (a b : Texto) (h1 : naoAcima a b) (h2 : naoAcima b a) : a = b := by
  unfold naoAcima at *
  have := strcmp_pos_iff b a
  exact eq_of_strcmp_eq_zero a b (by omega)


theorem exibirPistas_eq_ordenadoSemRepeticao (textos : List Texto) :
    exibirPistas (inserirPistas .nulo textos) = ordenadoSemRepeticao textos := by
  have hasc := ascendente_inserirPistas textos .nulo (by simp [exibirPistas, Ascendente])
  have hnd := nodup_of_ascendente _ hasc
  have hperm : (exibirPistas (inserirPistas .nulo textos)).Perm (textos.dedup) := by
    rw [List.perm_ext_iff_of_nodup hnd (List.nodup_dedup textos)]
    intro t
    rw [mem_exibirPistas_inserirPistas, List.mem_dedup]
    simp [exibirPistas]
  haveI : IsTotal Texto naoAcima := ⟨naoAcima_total⟩
  haveI : IsTrans Texto naoAcima := ⟨naoAcima_trans⟩
  haveI : IsAntisymm Texto naoAcima := ⟨naoAcima_antisymm⟩
  refine List.eq_of_perm_of_sorted (r := naoAcima)
    (hperm.trans (List.perm_insertionSort naoAcima _).symm) ?_
    (List.sorted_insertionSort naoAcima _)
  exact List.Pairwise.imp (fun h => Int.le_of_lt h) hasc

/-! ## The loop of `explorarSalas` -/

/-- A property kept by every iteration holds when the loop is left. -/
theorem laco_invariante (P : Estado → Prop) (Q : Fim → Estado → Prop)
    (hcont : ∀ s a s1, P s → passo s = .continua a s1 → P s1)
    (hfim : ∀ s m s1, P s → passo s = .fim m s1 → Q m s1) :
    ∀ (n : Nat) (s : Estado) (r : Resultado), P s → laco n s = some r → Q r.motivo r.estado := by
  intro n
  induction n with
  | zero => intro s r _ h; simp [laco] at h
  | succ n ih =>
    intro s r hP h
    unfold laco at h
    cases hp : passo s with
    | fim m s1 =>
      rw [hp] at h
      simp only [Option.some.injEq] at h
      subst h
      exact hfim s m s1 hP hp
    | continua a s1 =>
      rw [hp] at h
      cases hl : laco n s1 with
      | none => simp [hl] at h
      | some r1 =>
        simp only [hl, Option.some.injEq] at h
        subst h
        exact ih s1 r1 (hcont s a s1 hP hp) hl

/-- The ledger after one iteration: the clue of the current room has been collected. -/
theorem passo_raizPistas (s : Estado) :
    (∀ a s1, passo s = .continua a s1 →
      ∃ nome pista esq dir, s.salaAtual = .no nome pista esq dir ∧
        s1.raizPistas = coletarPista pista s.raizPistas ∧
        (s1.salaAtual = s.salaAtual ∨ (s1.salaAtual = esq ∧ esq.ehNulo = false) ∨
          (s1.salaAtual = dir ∧ dir.ehNulo = false))) ∧
    (∀ m s1, passo s = .fim m s1 →
      (s.salaAtual = .nulo ∧ s1 = s ∧ m = .semSala) ∨
      ∃ nome pista esq dir, s.salaAtual = .no nome pista esq dir ∧
        s1.raizPistas = coletarPista pista s.raizPistas ∧ s1.salaAtual = s.salaAtual) := by
  obtain ⟨sala, raiz, opcao, entrada⟩ := s
  cases sala with
  | nulo =>
    constructor
    · intro a s1 h; simp [passo] at h
    · intro m s1 h
      simp only [passo, Passo.fim.injEq] at h
      exact Or.inl ⟨rfl, h.2.symm, h.1.symm⟩
  | no nome pista esq dir =>
    constructor
    · intro a s1 h
      refine ⟨nome, pista, esq, dir, rfl, ?_⟩
      simp only [passo] at h
      split_ifs at h <;> simp only [Passo.continua.injEq, reduceCtorEq] at h <;>
        obtain ⟨-, rfl⟩ := h <;> simp_all
    · intro m s1 h
      refine Or.inr ⟨nome, pista, esq, dir, rfl, ?_⟩
      simp only [passo] at h
      split_ifs at h <;> simp only [Passo.fim.injEq, reduceCtorEq] at h <;>
        obtain ⟨-, rfl⟩ := h <;> simp

theorem vazio_fora_de_coletarPista (pista : Texto) (raiz : PistaNode)
    (h : [] ∉ exibirPistas raiz) : [] ∉ exibirPistas (coletarPista pista raiz) := by
  unfold coletarPista
  split_ifs with hp
  · rw [mem_exibirPistas_inserirPista]
    rintro (h1 | h1)
    · rw [← h1] at hp; simp [strlen] at hp
    · exact h h1
  · exact h



/-! ## Lookups in the suspect index -/

/-- Lookup after one insertion: the inserted clue gives the new suspect, every
other text gives what it gave before. -/
theorem encontrarSuspeito_inserirNaHash (sc : Bool) (tab tab1 : Tabela) (p s q : Texto)
    (h : inserirNaHash sc tab p s = some tab1) :
    encontrarSuspeito sc tab1 q =
      if p = q then some (some s) else encontrarSuspeito sc tab q := by
  unfold inserirNaHash at h
  cases hp : posicao (funcaoHash sc p) with
  | none => simp [hp] at h
  | some i =>
    simp only [hp, Option.some.injEq] at h
    subst h
    by_cases hpq : p = q
    · subst hpq
      simp [encontrarSuspeito, hp, buscarNaLista, strcmp_self]
    · rw [if_neg hpq]
      unfold encontrarSuspeito
      cases hq : posicao (funcaoHash sc q) with
      | none => rfl
      | some j =>
        simp only
        by_cases hji : j = i
        · subst hji
          have : ¬ strcmp p q = 0 := fun h0 => hpq (eq_of_strcmp_eq_zero p q h0)
          simp [buscarNaLista, this]
        · simp [hji]

theorem encontrarSuspeito_inserirPares_of_not_mem (sc : Bool) (pares : List (Texto × Texto))
    (tab0 tab : Tabela) (q : Texto) (h : inserirPares sc tab0 pares = some tab)
    (hq : q ∉ pares.map Prod.fst) :
    encontrarSuspeito sc tab q = encontrarSuspeito sc tab0 q := by
  induction pares generalizing tab0 with
  | nil =>
    simp only [inserirPares, Option.some.injEq] at h
    rw [h]
  | cons par resto ih =>
    obtain ⟨p, s⟩ := par
    simp only [List.map_cons, List.mem_cons, not_or] at hq
    unfold inserirPares at h
    cases h1 : inserirNaHash sc tab0 p s with
    | none => simp [h1] at h
    | some t =>
      simp only [h1] at h
      rw [ih t h hq.2, encontrarSuspeito_inserirNaHash sc tab0 t p s q h1, if_neg (Ne.symm hq.1)]

theorem encontrarSuspeito_inserirPares_of_mem (sc : Bool) (pares : List (Texto × Texto))
    (tab0 tab : Tabela) (h : inserirPares sc tab0 pares = some tab)
    (hnd : (pares.map Prod.fst).Nodup) (p s : Texto) (hps : (p, s) ∈ pares) :
    encontrarSuspeito sc tab p = some (some s) := by
  induction pares generalizing tab0 with
  | nil => simp at hps
  | cons par resto ih =>
    obtain ⟨p1, s1⟩ := par
    simp only [List.map_cons, List.nodup_cons] at hnd
    unfold inserirPares at h
    cases h1 : inserirNaHash sc tab0 p1 s1 with
    | none => simp [h1] at h
    | some t =>
      simp only [h1] at h
      rcases List.mem_cons.1 hps with heq | hmem
      · simp only [Prod.mk.injEq] at heq
        obtain ⟨rfl, rfl⟩ := heq
        rw [encontrarSuspeito_inserirPares_of_not_mem sc resto t tab p h hnd.1,
          encontrarSuspeito_inserirNaHash sc tab0 t p s p h1, if_pos rfl]
      · exact ih t h hnd.2 hmem

theorem encontrarSuspeito_tabelaVazia (sc : Bool) (q : Texto) :
    encontrarSuspeito sc tabelaVazia q =
      if 0 ≤ funcaoHash sc q then some none else none := by
  unfold encontrarSuspeito posicao
  have hlt : funcaoHash sc q < (TAM_HASH : Int) := by
    unfold funcaoHash
    exact Int.tmod_lt_of_pos _ (by decide)
  by_cases h0 : 0 ≤ funcaoHash sc q
  · simp [h0, hlt, tabelaVazia, buscarNaLista]
  · simp [h0]

/-! ## Counting and the shipped configuration -/

theorem tabelaSuspeitos_eq (sc : Bool) : tabelaSuspeitos sc = some (tabelaDoJogo sc) := by
  cases sc <;> rfl

theorem situacoes_fechadas :
    ∀ x ∈ situacoesDaMansao, x.1.ehNulo = false ∧
      (x.1, coletarPista x.1.pistaDe x.2) ∈ situacoesDaMansao ∧
      ∀ y ∈ x.1.saidas, (y, coletarPista y.pistaDe x.2) ∈ situacoesDaMansao := by
  decide

theorem contarPistasSuspeito_eq (sc : Bool) (tab : Tabela) (alvo : Texto) (raiz : PistaNode)
    (f : Texto → Option Texto)
    (hf : ∀ c ∈ exibirPistas raiz, encontrarSuspeito sc tab c = some (f c)) :
    contarPistasSuspeito sc tab alvo raiz =
      some ((exibirPistas raiz).countP (fun c => apontaPara alvo (f c))) := by
  induction raiz with
  | nulo => rfl
  | no k esq dir ihe ihd =>
    simp only [exibirPistas, List.mem_append, List.mem_cons] at hf
    have he := ihe (fun c hc => hf c (Or.inl hc))
    have hd := ihd (fun c hc => hf c (Or.inr (Or.inr hc)))
    have hk := hf k (Or.inr (Or.inl rfl))
    simp only [contarPistasSuspeito, hk, he, hd, exibirPistas, List.countP_append,
      List.countP_cons, Option.some.injEq]
    cases hfk : f k with
    | none => simp [apontaPara]
    | some s =>
      by_cases hs : s = alvo
      · simp [apontaPara, hs, strcmp_self]; omega
      · have : ¬ strcmp s alvo = 0 := fun h0 => hs (eq_of_strcmp_eq_zero s alvo h0)
        simp [apontaPara, hs, this]

theorem contarPistasSuspeito_eq_none (sc : Bool) (tab : Tabela) (alvo : Texto) (raiz : PistaNode) :
    contarPistasSuspeito sc tab alvo raiz = none ↔
      ∃ c ∈ exibirPistas raiz, encontrarSuspeito sc tab c = none := by
  induction raiz with
  | nulo => simp [contarPistasSuspeito, exibirPistas]
  | no k esq dir ihe ihd =>
    simp only [exibirPistas, List.mem_append, List.mem_cons]
    cases hk : encontrarSuspeito sc tab k with
    | none =>
      simp only [contarPistasSuspeito, hk, true_iff]
      exact ⟨k, Or.inr (Or.inl rfl), hk⟩
    | some x =>
      cases he : contarPistasSuspeito sc tab alvo esq with
      | none =>
        simp only [contarPistasSuspeito, hk, he, true_iff]
        obtain ⟨c, hc, hn⟩ := ihe.1 he
        exact ⟨c, Or.inl hc, hn⟩
      | some a =>
        cases hd : contarPistasSuspeito sc tab alvo dir with
        | none =>
          simp only [contarPistasSuspeito, hk, he, hd, true_iff]
          obtain ⟨c, hc, hn⟩ := ihd.1 hd
          exact ⟨c, Or.inr (Or.inr hc), hn⟩
        | some b =>
          simp only [contarPistasSuspeito, hk, he, hd, reduceCtorEq, false_iff]
          rintro ⟨c, hc | rfl | hc, hn⟩
          · have := ihe.2 ⟨c, hc, hn⟩
            rw [he] at this; cases this
          · rw [hk] at hn; cases hn
          · have := ihd.2 ⟨c, hc, hn⟩
            rw [hd] at this; cases this

theorem consulta_nas_situacoes :
    ∀ sc, ∀ x ∈ situacoesDaMansao, ∀ c ∈ exibirPistas x.2,
      encontrarSuspeito sc (tabelaDoJogo sc) c = some (suspeitoNoGabarito c) := by
  decide

theorem verificarSuspeitoFinal_eq (sc : Bool) (raiz : PistaNode) (tab : Tabela) (a : Texto)
    (q : Nat) (h : contarPistasSuspeito sc tab a raiz = some q) :
    verificarSuspeitoFinal sc raiz tab a = some (q, if 2 ≤ q then .culpado else .inocente) := by
  simp only [verificarSuspeitoFinal, h]
  split_ifs <;> rfl

/-- Every finished run in the mansion of `main` ends in one of its seven situations. -/
theorem run_na_mansao (n opcao : Nat) (entrada : List Nat) (r : Resultado)
    (h : explorarSalas n mansao .nulo opcao entrada = some r) :
    (r.estado.salaAtual, r.estado.raizPistas) ∈ situacoesDaMansao := by
  refine laco_invariante
    (fun s => ∃ x ∈ situacoesDaMansao, s.salaAtual = x.1 ∧
      coletarPista x.1.pistaDe s.raizPistas = x.2)
    (fun _ s => (s.salaAtual, s.raizPistas) ∈ situacoesDaMansao) ?_ ?_ n _ r ?_ h
  · rintro s a s1 ⟨x, hx, hsala, hraiz⟩ hp
    obtain ⟨nome, pista, esq, dir, hs, h1, h2⟩ := (passo_raizPistas s).1 a s1 hp
    obtain ⟨-, hmesma, hsaidas⟩ := situacoes_fechadas x hx
    have hx1 : x.1 = .no nome pista esq dir := by rw [← hsala, hs]
    have hpista : x.1.pistaDe = pista := by rw [hx1]; rfl
    have hr : s1.raizPistas = x.2 := by rw [h1, ← hraiz, hpista]
    rcases h2 with h2 | ⟨h2, hn⟩ | ⟨h2, hn⟩
    · exact ⟨_, hmesma, by rw [h2, hsala], by rw [hr]⟩
    · have hmem : esq ∈ x.1.saidas := by rw [hx1]; simp [Sala.saidas, hn]
      exact ⟨_, hsaidas esq hmem, h2, by rw [hr]⟩
    · have hmem : dir ∈ x.1.saidas := by rw [hx1]; simp [Sala.saidas, hn]
      exact ⟨_, hsaidas dir hmem, h2, by rw [hr]⟩
  · rintro s m s1 ⟨x, hx, hsala, hraiz⟩ hp
    rcases (passo_raizPistas s).2 m s1 hp with ⟨hnul, -, -⟩ | ⟨nome, pista, esq, dir, hs, h1, h2⟩
    · have := (situacoes_fechadas x hx).1
      rw [← hsala, hnul] at this
      cases this
    · have hx1 : x.1 = .no nome pista esq dir := by rw [← hsala, hs]
      have hpista : x.1.pistaDe = pista := by rw [hx1]; rfl
      have hr : s1.raizPistas = x.2 := by rw [h1, ← hraiz, hpista]
      rw [h2, hsala, hr]
      exact hx
  · exact ⟨(mansao, inserirPistas .nulo [pegadas]), by decide, rfl, rfl⟩

theorem suspeitos_nas_situacoes :
    ∀ x ∈ situacoesDaMansao,
      (x.1 = jardimDeInverno ∧ (exibirPistas x.2).map suspeitoNoGabarito =
          [some jardineiro, some mordomo, some jardineiro]) ∨
      (x.1 ≠ jardimDeInverno ∧ (exibirPistas x.2).map suspeitoNoGabarito ∈
          [[some jardineiro], [some jardineiro, some mordomo],
           [some governanta, some jardineiro, some mordomo],
           [some governanta, some jardineiro]]) := by
  decide

theorem contagem_nas_situacoes (a : Texto) (x : Sala × PistaNode)
    (hx : x ∈ situacoesDaMansao) :
    if a = jardineiro ∧ x.1 = jardimDeInverno then
      ((exibirPistas x.2).map suspeitoNoGabarito).countP (apontaPara a) = 2
    else ((exibirPistas x.2).map suspeitoNoGabarito).countP (apontaPara a) ≤ 1 := by
  have hjm : jardineiro ≠ mordomo := by decide
  have hjg : jardineiro ≠ governanta := by decide
  have hmg : mordomo ≠ governanta := by decide
  rcases suspeitos_nas_situacoes x hx with ⟨hs, hl⟩ | ⟨hs, hl⟩
  · rw [hl]
    by_cases h1 : a = jardineiro
    · subst h1
      simp [hs, List.countP_cons, apontaPara, hjm.symm]
    · simp [h1, List.countP_cons, apontaPara, Ne.symm h1]
      split_ifs <;> omega
  · rw [if_neg (fun h => hs h.2)]
    simp only [List.mem_cons, List.mem_singleton, List.not_mem_nil, or_false] at hl
    rcases hl with hl | hl | hl | hl <;> rw [hl] <;>
      simp only [List.countP_cons, List.countP_nil, apontaPara] <;>
      by_cases h1 : jardineiro = a <;> by_cases h2 : mordomo = a <;>
      by_cases h3 : governanta = a <;> simp_all

theorem veredito_nas_situacoes (sc : Bool) (x : Sala × PistaNode) (hx : x ∈ situacoesDaMansao)
    (a : Texto) :
    ∃ q, verificarSuspeitoFinal sc x.2 (tabelaDoJogo sc) a =
        some (q, if a = jardineiro ∧ x.1 = jardimDeInverno then .culpado else .inocente) ∧
      (if a = jardineiro ∧ x.1 = jardimDeInverno then q = 2 else q ≤ 1) := by
  have hc := contarPistasSuspeito_eq sc (tabelaDoJogo sc) a x.2 suspeitoNoGabarito
    (consulta_nas_situacoes sc x hx)
  have hn := contagem_nas_situacoes a x hx
  simp only [List.countP_map, Function.comp_def] at hn
  refine ⟨_, ?_, hn⟩
  rw [verificarSuspeitoFinal_eq sc x.2 _ a _ hc]
  split_ifs at hn ⊢ with h1 h2 h2
  · rfl
  · omega
  · omega
  · rfl

/-! ## Runs of `explorarSalas` -/

/-- More iterations allowed do not change the result of a finished run. -/
theorem laco_succ_of_some (n : Nat) (s : Estado) (r : Resultado) (h : laco n s = some r) :
    laco (n + 1) s = some r := by
  induction n generalizing s r with
  | zero => simp [laco] at h
  | succ n ih =>
    unfold laco at h ⊢
    cases hp : passo s with
    | fim m s1 => rw [hp] at h; exact h
    | continua a s1 =>
      rw [hp] at h
      cases hl : laco n s1 with
      | none => simp [hl] at h
      | some r1 =>
        simp only [hl] at h
        simp only [ih s1 r1 hl]
        exact h

theorem laco_of_le (n m : Nat) (s : Estado) (r : Resultado) (h : laco n s = some r)
    (hnm : n ≤ m) : laco m s = some r := by
  induction hnm with
  | refl => exact h
  | step _ ih => exact laco_succ_of_some _ s r ih

theorem scanfChar_comando (ws : List Nat) (c : Nat) (resto : List Nat) (opcao : Nat)
    (hws : ∀ w ∈ ws, isspace w = true) (hc : isspace c = false) :
    scanfChar (ws ++ c :: resto) opcao = (c, resto) := by
  induction ws with
  | nil => simp [scanfChar, List.dropWhile, hc]
  | cons w ws ih =>
    have hw : isspace w = true := hws w (List.mem_cons_self w ws)
    have := ih (fun v hv => hws v (List.mem_cons_of_mem w hv))
    simp only [scanfChar, List.cons_append, List.dropWhile, hw] at this ⊢
    exact this

/-- The iteration at a room with a left exit when the option read is `e` or `E`. -/
theorem passo_esquerda (nome pista : Texto) (esq dir : Sala) (raiz : PistaNode)
    (opcao e : Nat) (ws resto : List Nat) (he : e = 101 ∨ e = 69)
    (hws : ∀ w ∈ ws, isspace w = true) (hesq : esq.ehNulo = false) :
    passo ⟨.no nome pista esq dir, raiz, opcao, ws ++ e :: resto⟩ =
      .continua .moveuEsquerda ⟨esq, coletarPista pista raiz, e, resto⟩ := by
  have hc : isspace e = false := by rcases he with rfl | rfl <;> decide
  simp [passo, scanfChar_comando ws e resto opcao hws hc, hesq, he]

/-- The iteration at a room with a right exit when the option read is `d` or `D`. -/
theorem passo_direita (nome pista : Texto) (esq dir : Sala) (raiz : PistaNode)
    (opcao d : Nat) (ws resto : List Nat) (hd : d = 100 ∨ d = 68)
    (hws : ∀ w ∈ ws, isspace w = true) (hdir : dir.ehNulo = false) :
    passo ⟨.no nome pista esq dir, raiz, opcao, ws ++ d :: resto⟩ =
      .continua .moveuDireita ⟨dir, coletarPista pista raiz, d, resto⟩ := by
  have hc : isspace d = false := by rcases hd with rfl | rfl <;> decide
  have hne : ¬ (d = 101 ∨ d = 69) := by rcases hd with rfl | rfl <;> decide
  simp [passo, scanfChar_comando ws d resto opcao hws hc, hdir, hd, hne]

/-- The iteration at a room without exits. -/
theorem passo_beco (nome pista : Texto) (raiz : PistaNode) (opcao : Nat) (entrada : List Nat) :
    passo ⟨.no nome pista .nulo .nulo, raiz, opcao, entrada⟩ =
      .fim .becoSemSaida ⟨.no nome pista .nulo .nulo, coletarPista pista raiz, opcao, entrada⟩ := by
  simp [passo, Sala.ehNulo]

/-- A never associated text whose bucket lies in the table is answered with `NULL`. -/
theorem encontrarSuspeito_nunca_associada (sc : Bool) (pares : List (Texto × Texto))
    (tab : Tabela) (q : Texto) (h : inserirPares sc tabelaVazia pares = some tab)
    (hq : q ∉ pares.map Prod.fst) (h0 : 0 ≤ funcaoHash sc q) :
    encontrarSuspeito sc tab q = some none := by
  rw [encontrarSuspeito_inserirPares_of_not_mem sc pares tabelaVazia tab q h hq,
    encontrarSuspeito_tabelaVazia, if_pos h0]

theorem esquerda_esquerda (n opcao e1 e2 : Nat) (ws1 ws2 resto : List Nat) (hn : 3 ≤ n)
    (h1 : e1 = 101 ∨ e1 = 69) (h2 : e2 = 101 ∨ e2 = 69)
    (hw1 : ∀ w ∈ ws1, isspace w = true) (hw2 : ∀ w ∈ ws2, isspace w = true) :
    explorarSalas n mansao .nulo opcao (ws1 ++ e1 :: (ws2 ++ e2 :: resto)) =
      some ⟨.becoSemSaida, ⟨biblioteca, inserirPistas .nulo [pegadas, relogio, livro], e2, resto⟩,
        [.moveuEsquerda, .moveuEsquerda]⟩ := by
  refine laco_of_le 3 n _ _ ?_ hn
  have p1 : passo ⟨mansao, .nulo, opcao, ws1 ++ e1 :: (ws2 ++ e2 :: resto)⟩ =
      .continua .moveuEsquerda ⟨salaDeEstar, coletarPista pegadas .nulo, e1, ws2 ++ e2 :: resto⟩ :=
    passo_esquerda mansao.nomeDe pegadas salaDeEstar cozinha .nulo opcao e1 ws1
      (ws2 ++ e2 :: resto) h1 hw1 rfl
  have p2 : passo ⟨salaDeEstar, coletarPista pegadas .nulo, e1, ws2 ++ e2 :: resto⟩ =
      .continua .moveuEsquerda
        ⟨biblioteca, coletarPista relogio (coletarPista pegadas .nulo), e2, resto⟩ :=
    passo_esquerda salaDeEstar.nomeDe relogio biblioteca jardimDeInverno
      (coletarPista pegadas .nulo) e1 e2 ws2 resto h2 hw2 rfl
  have p3 : passo ⟨biblioteca, coletarPista relogio (coletarPista pegadas .nulo), e2, resto⟩ =
      .fim .becoSemSaida ⟨biblioteca,
        coletarPista livro (coletarPista relogio (coletarPista pegadas .nulo)), e2, resto⟩ :=
    passo_beco biblioteca.nomeDe livro _ e2 resto
  simp only [laco, p1, p2, p3]
  rfl

/-! ## The iterations of the loop, case by case -/

/-- How a run of at most `n + 1` iterations that has finished is made up. -/
theorem laco_succ_casos (n : Nat) (s : Estado) (r : Resultado) (h : laco (n + 1) s = some r) :
    (∃ m s1, passo s = .fim m s1 ∧ r = ⟨m, s1, []⟩) ∨
    (∃ a s1 r1, passo s = .continua a s1 ∧ laco n s1 = some r1 ∧
      r = ⟨r1.motivo, r1.estado, a :: r1.avisos⟩) := by
  unfold laco at h
  cases hp : passo s with
  | fim m s1 =>
    rw [hp] at h
    simp only [Option.some.injEq] at h
    exact Or.inl ⟨m, s1, rfl, h.symm⟩
  | continua a s1 =>
    rw [hp] at h
    cases hl : laco n s1 with
    | none => simp [hl] at h
    | some r1 =>
      simp only [hl, Option.some.injEq] at h
      exact Or.inr ⟨a, s1, r1, rfl, hl, h.symm⟩

/-- The iterations that stay in the loop, case by case. -/
theorem passo_continua_casos (s : Estado) (a : Aviso) (s1 : Estado)
    (h : passo s = .continua a s1) :
    ∃ nome pista esq dir, s.salaAtual = .no nome pista esq dir ∧
      (esq.ehNulo && dir.ehNulo) = false ∧
      s1.raizPistas = coletarPista pista s.raizPistas ∧
      s1.opcao = (scanfChar s.entrada s.opcao).1 ∧
      s1.entrada = (scanfChar s.entrada s.opcao).2 ∧
      ((a = .moveuEsquerda ∧ s1.salaAtual = esq ∧ esq.ehNulo = false ∧
          (s1.opcao = 101 ∨ s1.opcao = 69)) ∨
       (a = .moveuDireita ∧ s1.salaAtual = dir ∧ dir.ehNulo = false ∧
          (s1.opcao = 100 ∨ s1.opcao = 68)) ∨
       (a = .caminhoBloqueado ∧ s1.salaAtual = s.salaAtual ∧
          (((s1.opcao = 101 ∨ s1.opcao = 69) ∧ esq.ehNulo = true) ∨
           ((s1.opcao = 100 ∨ s1.opcao = 68) ∧ dir.ehNulo = true))) ∨
       (a = .opcaoInvalida ∧ s1.salaAtual = s.salaAtual ∧
          ¬ (s1.opcao = 101 ∨ s1.opcao = 69) ∧ ¬ (s1.opcao = 100 ∨ s1.opcao = 68) ∧
          ¬ (s1.opcao = 115 ∨ s1.opcao = 83))) := by
  obtain ⟨sala, raiz, opcao, entrada⟩ := s
  cases sala with
  | nulo => simp [passo] at h
  | no nome pista esq dir =>
    refine ⟨nome, pista, esq, dir, rfl, ?_⟩
    simp only [passo] at h
    split_ifs at h with h1 h2 h3 h4 h5 h6 <;>
      simp only [Passo.continua.injEq, reduceCtorEq] at h <;>
      obtain ⟨rfl, rfl⟩ := h <;> simp_all

/-- The iterations that leave the loop, case by case. -/
theorem passo_fim_casos (s : Estado) (m : Fim) (s1 : Estado) (h : passo s = .fim m s1) :
    (s.salaAtual = .nulo ∧ m = .semSala ∧ s1 = s) ∨
    (∃ nome pista esq dir, s.salaAtual = .no nome pista esq dir ∧
      (esq.ehNulo && dir.ehNulo) = true ∧ m = .becoSemSaida ∧
      s1 = ⟨s.salaAtual, coletarPista pista s.raizPistas, s.opcao, s.entrada⟩) ∨
    (∃ nome pista esq dir, s.salaAtual = .no nome pista esq dir ∧
      (esq.ehNulo && dir.ehNulo) = false ∧ m = .saiu ∧
      (s1.opcao = 115 ∨ s1.opcao = 83) ∧
      s1 = ⟨s.salaAtual, coletarPista pista s.raizPistas, (scanfChar s.entrada s.opcao).1,
        (scanfChar s.entrada s.opcao).2⟩) := by
  obtain ⟨sala, raiz, opcao, entrada⟩ := s
  cases sala with
  | nulo =>
    simp only [passo, Passo.fim.injEq] at h
    exact Or.inl ⟨rfl, h.1.symm, h.2.symm⟩
  | no nome pista esq dir =>
    simp only [passo] at h
    split_ifs at h with h1 h2 h3 h4 h5 h6 <;>
      simp only [Passo.fim.injEq, reduceCtorEq] at h <;>
      obtain ⟨rfl, rfl⟩ := h
    · exact Or.inr (Or.inl ⟨nome, pista, esq, dir, rfl, h1, rfl, rfl⟩)
    · exact Or.inr (Or.inr ⟨nome, pista, esq, dir, rfl, by simpa using h1, rfl, by assumption, rfl⟩)

/-- The iteration at a room where the option read is `e` or `E` and there is no left exit. -/
theorem passo_esquerda_bloqueada (nome pista : Texto) (dir : Sala) (raiz : PistaNode)
    (opcao e : Nat) (ws resto : List Nat) (he : e = 101 ∨ e = 69)
    (hws : ∀ w ∈ ws, isspace w = true) (hdir : dir.ehNulo = false) :
    passo ⟨.no nome pista .nulo dir, raiz, opcao, ws ++ e :: resto⟩ =
      .continua .caminhoBloqueado ⟨.no nome pista .nulo dir, coletarPista pista raiz, e, resto⟩ := by
  have hc : isspace e = false := by rcases he with rfl | rfl <;> decide
  have hn : Sala.nulo.ehNulo = true := rfl
  simp [passo, scanfChar_comando ws e resto opcao hws hc, hdir, he, hn]

/-- The iteration at a room where the option read is `d` or `D` and there is no right exit. -/
theorem passo_direita_bloqueada (nome pista : Texto) (esq : Sala) (raiz : PistaNode)
    (opcao d : Nat) (ws resto : List Nat) (hd : d = 100 ∨ d = 68)
    (hws : ∀ w ∈ ws, isspace w = true) (hesq : esq.ehNulo = false) :
    passo ⟨.no nome pista esq .nulo, raiz, opcao, ws ++ d :: resto⟩ =
      .continua .caminhoBloqueado ⟨.no nome pista esq .nulo, coletarPista pista raiz, d, resto⟩ := by
  have hc : isspace d = false := by rcases hd with rfl | rfl <;> decide
  have hne : ¬ (d = 101 ∨ d = 69) := by rcases hd with rfl | rfl <;> decide
  have hn : Sala.nulo.ehNulo = true := rfl
  simp [passo, scanfChar_comando ws d resto opcao hws hc, hesq, hd, hne, hn]

theorem funcaoHash_lt (sc : Bool) (chave : Texto) : funcaoHash sc chave < 31 := by
  unfold funcaoHash
  exact Int.tmod_lt_of_pos _ (by decide)

theorem somaChars_nonneg (chave : Texto) (soma : Int) (h : 0 ≤ soma) :
    0 ≤ somaChars false soma chave := by
  induction chave generalizing soma with
  | nil => exact h
  | cons c resto ih =>
    unfold somaChars
    apply ih
    simp only [charParaInt, Bool.false_and]
    simp
    omega

theorem somaChars_ascii_nonneg (sc : Bool) (chave : Texto) (soma : Int) (h : 0 ≤ soma)
    (hasc : ∀ b ∈ chave, b < 128) : 0 ≤ somaChars sc soma chave := by
  induction chave generalizing soma with
  | nil => exact h
  | cons c resto ih =>
    unfold somaChars
    apply ih _ _ (fun b hb => hasc b (List.mem_cons_of_mem c hb))
    have hc : c < 128 := hasc c (List.mem_cons_self c resto)
    have : ¬ 128 ≤ c := by omega
    simp only [charParaInt, this, decide_False, Bool.and_false]
    simp
    omega


/-- Where `char` is unsigned the index of `funcaoHash` lies in the table. -/
theorem funcaoHash_sem_sinal (chave : Texto) :
    0 ≤ funcaoHash false chave ∧ funcaoHash false chave < 31 :=
  ⟨Int.tmod_nonneg _ (somaChars_nonneg chave 0 (le_refl 0)), funcaoHash_lt false chave⟩

/-- The index of `funcaoHash` of a text of bytes below 128 lies in the table. -/
theorem funcaoHash_ascii (sc : Bool) (chave : Texto) (hasc : ∀ b ∈ chave, b < 128) :
    0 ≤ funcaoHash sc chave ∧ funcaoHash sc chave < 31 :=
  ⟨Int.tmod_nonneg _ (somaChars_ascii_nonneg sc chave 0 (le_refl 0) hasc),
   funcaoHash_lt sc chave⟩

/-! ## Termination and the number of iterations -/

theorem scanfChar_fim (entrada : List Nat) (opcao : Nat) (h : fimDaEntrada entrada) :
    scanfChar entrada opcao = (opcao, []) := by
  unfold fimDaEntrada at h
  simp [scanfChar, h]

theorem scanfChar_length_le (entrada : List Nat) (opcao : Nat) :
    (scanfChar entrada opcao).2.length ≤ entrada.length := by
  unfold scanfChar
  have hsuf := List.dropWhile_suffix (l := entrada) isspace
  have hl := hsuf.length_le
  cases hd : entrada.dropWhile isspace with
  | nil => simp
  | cons c resto => rw [hd] at hl; simp at hl ⊢; omega

theorem scanfChar_length_lt (entrada : List Nat) (opcao : Nat) (h : ¬ fimDaEntrada entrada) :
    (scanfChar entrada opcao).2.length < entrada.length := by
  unfold scanfChar
  have hsuf := List.dropWhile_suffix (l := entrada) isspace
  have hl := hsuf.length_le
  cases hd : entrada.dropWhile isspace with
  | nil => exact absurd hd h
  | cons c resto => rw [hd] at hl; simp at hl ⊢; omega

/-- From a state that cannot leave the loop an iteration rejects the option
and gives a state that cannot leave the loop. -/
theorem preso_passo (s : Estado) (h : Preso s) :
    ∃ a s1, passo s = .continua a s1 ∧ a.ehRejeicao = true ∧ s1.salaAtual = s.salaAtual ∧
      s1.opcao = s.opcao ∧ s1.entrada = [] ∧ Preso s1 := by
  obtain ⟨sala, raiz, opcao, entrada⟩ := s
  obtain ⟨hn, hf, he, hr1, hr2, hr3⟩ := h
  cases sala with
  | nulo => cases hn
  | no nome pista esq dir =>
    simp only [Sala.ehFolha] at hf
    simp only [Sala.esq, Sala.dir] at hr1 hr2
    simp only at hr3 he
    have hsc := scanfChar_fim entrada opcao he
    have hfim : fimDaEntrada [] := rfl
    simp only [passo, hf, hsc]
    by_cases h1 : opcao = 101 ∨ opcao = 69
    · have hesq : esq.ehNulo = true := by
        cases hq : esq.ehNulo
        · exact absurd ⟨h1, hq⟩ hr1
        · rfl
      refine ⟨.caminhoBloqueado, ⟨.no nome pista esq dir, coletarPista pista raiz, opcao, []⟩,
        by simp [h1, hesq], rfl, rfl, rfl, rfl, ?_⟩
      exact ⟨hn, by simpa [Sala.ehFolha] using hf, hfim, hr1, hr2, hr3⟩
    · by_cases h2 : opcao = 100 ∨ opcao = 68
      · have hdir : dir.ehNulo = true := by
          cases hq : dir.ehNulo
          · exact absurd ⟨h2, hq⟩ hr2
          · rfl
        refine ⟨.caminhoBloqueado, ⟨.no nome pista esq dir, coletarPista pista raiz, opcao, []⟩,
          by simp [h1, h2, hdir], rfl, rfl, rfl, rfl, ?_⟩
        exact ⟨hn, by simpa [Sala.ehFolha] using hf, hfim, hr1, hr2, hr3⟩
      · refine ⟨.opcaoInvalida, ⟨.no nome pista esq dir, coletarPista pista raiz, opcao, []⟩,
          by simp [h1, h2, hr3], rfl, rfl, rfl, rfl, ?_⟩
        exact ⟨hn, by simpa [Sala.ehFolha] using hf, hfim, hr1, hr2, hr3⟩

/-- From a state that cannot leave the loop the loop never ends. -/
theorem preso_nunca_termina (n : Nat) (s : Estado) (h : Preso s) : laco n s = none := by
  induction n generalizing s with
  | zero => rfl
  | succ n ih =>
    obtain ⟨a, s1, hp, _, _, _, _, h1⟩ := preso_passo s h
    rw [laco, hp]
    simp [ih s1 h1]

theorem laco_none_of_continua (s s1 : Estado) (a : Aviso) (hp : passo s = .continua a s1)
    (h : ∀ n, laco n s1 = none) : ∀ n, laco n s = none := by
  intro n
  cases n with
  | zero => rfl
  | succ n => rw [laco, hp]; simp [h n]

theorem niveis_pos (sala : Sala) (h : sala.ehNulo = false) : 1 ≤ sala.niveis := by
  cases sala with
  | nulo => cases h
  | no nome pista esq dir => simp [Sala.niveis]

/-- The notices of a run are moves or rejections. -/
theorem avisos_length (avisos : List Aviso) :
    avisos.length = avisos.countP Aviso.ehMovimento + avisos.countP Aviso.ehRejeicao := by
  induction avisos with
  | nil => rfl
  | cons a l ih =>
    cases a <;> simp [List.countP_cons, Aviso.ehMovimento, Aviso.ehRejeicao, ih] <;> omega

/-- The accepted moves of a finished run are at most the depth of the tree. -/
theorem movimentos_le_profundidade (n : Nat) (s : Estado) (r : Resultado)
    (h : laco n s = some r) :
    r.avisos.countP Aviso.ehMovimento ≤ s.salaAtual.profundidade := by
  induction n generalizing s r with
  | zero => simp [laco] at h
  | succ n ih =>
    rcases laco_succ_casos n s r h with ⟨m, s1, _, rfl⟩ | ⟨a, s1, r1, hp, hl, rfl⟩
    · simp
    · have h1 := ih s1 r1 hl
      obtain ⟨nome, pista, esq, dir, hs, _, _, _, _, hc⟩ := passo_continua_casos s a s1 hp
      rw [hs]
      simp only [Sala.profundidade, Sala.niveis] at h1 ⊢
      rcases hc with ⟨rfl, hsala, hn, _⟩ | ⟨rfl, hsala, hn, _⟩ | ⟨rfl, hsala, _⟩ | ⟨rfl, hsala, _⟩
      · rw [hsala] at h1
        have := niveis_pos esq hn
        simp only [List.countP_cons, Aviso.ehMovimento, if_true]
        omega
      · rw [hsala] at h1
        have := niveis_pos dir hn
        simp only [List.countP_cons, Aviso.ehMovimento, if_true]
        omega
      · rw [hsala, hs] at h1
        simpa [List.countP_cons, Aviso.ehMovimento, Sala.niveis] using h1
      · rw [hsala, hs] at h1
        simpa [List.countP_cons, Aviso.ehMovimento, Sala.niveis] using h1

/-- The number of iterations of a finished run is the number of its notices
plus one: that many iterations are enough and fewer are not. -/
theorem laco_iteracoes (n : Nat) (s : Estado) (r : Resultado) (h : laco n s = some r) :
    r.avisos.length + 1 ≤ n ∧ laco (r.avisos.length + 1) s = some r ∧
    laco r.avisos.length s = none := by
  induction n generalizing s r with
  | zero => simp [laco] at h
  | succ n ih =>
    rcases laco_succ_casos n s r h with ⟨m, s1, hp, rfl⟩ | ⟨a, s1, r1, hp, hl, rfl⟩
    · refine ⟨by simp, ?_, by simp [laco]⟩
      simp [laco, hp]
    · obtain ⟨h1, h2, h3⟩ := ih s1 r1 hl
      refine ⟨by simp; omega, ?_, ?_⟩
      · simp only [List.length_cons]
        rw [laco, hp]
        simp only [h2]
      · simp only [List.length_cons]
        rw [laco, hp]
        simp only [h3]


/-- A run either ends within (levels of the tree) + (bytes of input) + 1
iterations or reaches a state that cannot leave the loop and never ends. -/
theorem termina_ou_fica_preso (k : Nat) (s : Estado)
    (hk : s.salaAtual.niveis + s.entrada.length ≤ k) :
    (∃ r, laco (k + 1) s = some r) ∨
    (∃ j s1, estadoApos j s = some s1 ∧ Preso s1 ∧ ∀ n, laco n s = none) := by
  induction k generalizing s with
  | zero =>
    have hz : s.salaAtual.niveis = 0 := by omega
    cases hs : s.salaAtual with
    | nulo =>
      left
      exact ⟨⟨.semSala, s, []⟩, by simp [laco, passo, hs]⟩
    | no nome pista esq dir => rw [hs] at hz; simp [Sala.niveis] at hz
  | succ k ih =>
    cases hp : passo s with
    | fim m s1 =>
      left
      exact ⟨⟨m, s1, []⟩, by simp [laco, hp]⟩
    | continua a s1 =>
      have avanca : s1.salaAtual.niveis + s1.entrada.length ≤ k →
          (∃ r, laco (k + 1 + 1) s = some r) ∨
          (∃ j s2, estadoApos j s = some s2 ∧ Preso s2 ∧ ∀ n, laco n s = none) := by
        intro hle
        rcases ih s1 hle with ⟨r1, hr1⟩ | ⟨j, s2, hj, hpr, hnone⟩
        · left
          exact ⟨⟨r1.motivo, r1.estado, a :: r1.avisos⟩, by rw [laco, hp]; simp [hr1]⟩
        · right
          refine ⟨j + 1, s2, by simp [estadoApos, hp, hj], hpr,
            laco_none_of_continua s s1 a hp hnone⟩
      obtain ⟨nome, pista, esq, dir, hs, hnf, _, hop, hent, hc⟩ := passo_continua_casos s a s1 hp
      have hlen := scanfChar_length_le s.entrada s.opcao
      rw [← hent] at hlen
      have hniv : s.salaAtual.niveis = 1 + max esq.niveis dir.niveis := by rw [hs]; rfl
      by_cases hfim : fimDaEntrada s.entrada
      · have hsc := scanfChar_fim s.entrada s.opcao hfim
        rw [hsc] at hop hent
        simp only at hop hent
        rcases hc with ⟨_, hsala, _, _⟩ | ⟨_, hsala, _, _⟩ | ⟨_, hsala, hb⟩ | ⟨_, hsala, hi⟩
        · apply avanca; rw [hsala]; omega
        · apply avanca; rw [hsala]; omega
        · have hpreso : Preso s := by
            refine ⟨by rw [hs]; rfl, by rw [hs]; simpa [Sala.ehFolha] using hnf, hfim, ?_⟩
            rw [hop] at hb
            rw [hs]
            simp only [opcaoRejeitada, Sala.esq, Sala.dir]
            rcases hb with ⟨h1, h2⟩ | ⟨h1, h2⟩
            · refine ⟨by simp [h2], ?_, ?_⟩ <;> omega
            · refine ⟨?_, by simp [h2], ?_⟩ <;> omega
          exact Or.inr ⟨0, s, rfl, hpreso, fun n => preso_nunca_termina n s hpreso⟩
        · have hpreso : Preso s := by
            refine ⟨by rw [hs]; rfl, by rw [hs]; simpa [Sala.ehFolha] using hnf, hfim, ?_⟩
            rw [hop] at hi
            simp only [opcaoRejeitada]
            exact ⟨fun h => hi.1 h.1, fun h => hi.2.1 h.1, hi.2.2⟩
          exact Or.inr ⟨0, s, rfl, hpreso, fun n => preso_nunca_termina n s hpreso⟩
      · have hlt := scanfChar_length_lt s.entrada s.opcao hfim
        rw [← hent] at hlt
        apply avanca
        rcases hc with ⟨_, hsala, _, _⟩ | ⟨_, hsala, _, _⟩ | ⟨_, hsala, _⟩ | ⟨_, hsala, _⟩ <;>
          rw [hsala] <;> omega

/-! ## The ledger and the rooms visited by a run -/

/-- Inserting a text twice is inserting it once, in every tree. -/
theorem inserirPista_idem (raiz : PistaNode) (c : Texto) :
    inserirPista (inserirPista raiz c) c = inserirPista raiz c := by
  induction raiz with
  | nulo => simp [inserirPista, strcmp_self]
  | no k esq dir ihe ihd =>
    simp only [inserirPista]
    split_ifs with h1 h2
    · simp only [inserirPista, h1, if_true, ihe]
    · simp only [inserirPista, h1, h2, if_true, if_false, ihd]
    · simp only [inserirPista, h1, h2, if_false]

/-- Collecting the clue of a room again changes nothing, in every ledger. -/
theorem coletarPista_idem (pista : Texto) (raiz : PistaNode) :
    coletarPista pista (coletarPista pista raiz) = coletarPista pista raiz := by
  unfold coletarPista
  split_ifs with h
  · exact inserirPista_idem raiz pista
  · rfl

theorem mem_exibirPistas_coletarPista (pista : Texto) (raiz : PistaNode) (t : Texto) :
    t ∈ exibirPistas (coletarPista pista raiz) ↔
      (strlen t > 0 ∧ t = pista) ∨ t ∈ exibirPistas raiz := by
  unfold coletarPista
  split_ifs with h
  · rw [mem_exibirPistas_inserirPista]
    constructor
    · rintro (rfl | h1)
      · exact Or.inl ⟨h, rfl⟩
      · exact Or.inr h1
    · rintro (⟨_, rfl⟩ | h1)
      · exact Or.inl rfl
      · exact Or.inr h1
  · constructor
    · exact Or.inr
    · rintro (⟨h1, rfl⟩ | h1)
      · exact absurd h1 h
      · exact h1

theorem ascendente_coletarPista (pista : Texto) (raiz : PistaNode)
    (h : Ascendente (exibirPistas raiz)) : Ascendente (exibirPistas (coletarPista pista raiz)) := by
  unfold coletarPista
  split_ifs
  · exact ascendente_inserirPista raiz pista h
  · exact h

/-- A run keeps the ledger ordered. -/
theorem laco_ascendente (n : Nat) (s : Estado) (r : Resultado) (h : laco n s = some r)
    (ha : Ascendente (exibirPistas s.raizPistas)) :
    Ascendente (exibirPistas r.estado.raizPistas) := by
  refine laco_invariante (fun s => Ascendente (exibirPistas s.raizPistas))
    (fun _ s => Ascendente (exibirPistas s.raizPistas)) ?_ ?_ n s r ha h
  · intro s a s1 hs hp
    obtain ⟨_, pista, _, _, _, h1, _⟩ := (passo_raizPistas s).1 a s1 hp
    rw [h1]; exact ascendente_coletarPista pista _ hs
  · intro s m s1 hs hp
    rcases (passo_raizPistas s).2 m s1 hp with ⟨_, h1, _⟩ | ⟨_, pista, _, _, _, h1, _⟩
    · rw [h1]; exact hs
    · rw [h1]; exact ascendente_coletarPista pista _ hs

theorem mem_visitadas_self (sala : Sala) (avisos : List Aviso) (h : sala.ehNulo = false) :
    sala ∈ visitadas sala avisos := by
  induction avisos with
  | nil => cases sala <;> simp_all [visitadas, Sala.ehNulo]
  | cons a l ih =>
    cases sala with
    | nulo => cases h
    | no nome pista esq dir => cases a <;> simp_all [visitadas]

theorem mem_pistasVisitadas (salas : List Sala) (t : Texto) :
    t ∈ pistasVisitadas salas ↔ strlen t > 0 ∧ ∃ sala ∈ salas, sala.pistaDe = t := by
  simp only [pistasVisitadas, List.mem_filter, List.mem_map, decide_eq_true_eq]
  tauto

/-- The texts of the ledger after a run: those it held before and the
non-empty clues of the rooms visited. -/
theorem mem_exibirPistas_laco (n : Nat) (s : Estado) (r : Resultado) (h : laco n s = some r)
    (t : Texto) :
    t ∈ exibirPistas r.estado.raizPistas ↔
      t ∈ exibirPistas s.raizPistas ∨ t ∈ pistasVisitadas (visitadas s.salaAtual r.avisos) := by
  induction n generalizing s r with
  | zero => simp [laco] at h
  | succ n ih =>
    rcases laco_succ_casos n s r h with ⟨m, s1, hp, rfl⟩ | ⟨a, s1, r1, hp, hl, rfl⟩
    · rcases passo_fim_casos s m s1 hp with ⟨hs, -, rfl⟩ |
        ⟨nome, pista, esq, dir, hs, -, -, rfl⟩ | ⟨nome, pista, esq, dir, hs, -, -, -, rfl⟩
      · simp [hs, visitadas, pistasVisitadas]
      · simp only [hs, visitadas, mem_exibirPistas_coletarPista, mem_pistasVisitadas,
          List.mem_singleton, exists_eq_left, Sala.pistaDe]
        tauto
      · simp only [hs, visitadas, mem_exibirPistas_coletarPista, mem_pistasVisitadas,
          List.mem_singleton, exists_eq_left, Sala.pistaDe]
        tauto
    · have h1 := ih s1 r1 hl
      obtain ⟨nome, pista, esq, dir, hs, _, hraiz, _, _, hc⟩ := passo_continua_casos s a s1 hp
      have hself : ∀ l, Sala.no nome pista esq dir ∈ visitadas (Sala.no nome pista esq dir) l :=
        fun l => mem_visitadas_self _ l rfl
      simp only [h1, hraiz, mem_exibirPistas_coletarPista, mem_pistasVisitadas, hs]
      rcases hc with ⟨rfl, hsala, _, _⟩ | ⟨rfl, hsala, _, _⟩ | ⟨rfl, hsala, _⟩ | ⟨rfl, hsala, _⟩
      · simp only [hsala, visitadas, Sala.esq, List.mem_cons, exists_eq_or_imp, Sala.pistaDe]
        constructor
        · rintro ((⟨h2, h3⟩ | h2) | ⟨h2, h3⟩)
          · exact Or.inr ⟨h2, Or.inl h3.symm⟩
          · exact Or.inl h2
          · exact Or.inr ⟨h2, Or.inr h3⟩
        · rintro (h2 | ⟨h2, h3 | h3⟩)
          · exact Or.inl (Or.inr h2)
          · exact Or.inl (Or.inl ⟨h2, h3.symm⟩)
          · exact Or.inr ⟨h2, h3⟩
      · simp only [hsala, visitadas, Sala.dir, List.mem_cons, exists_eq_or_imp, Sala.pistaDe]
        constructor
        · rintro ((⟨h2, h3⟩ | h2) | ⟨h2, h3⟩)
          · exact Or.inr ⟨h2, Or.inl h3.symm⟩
          · exact Or.inl h2
          · exact Or.inr ⟨h2, Or.inr h3⟩
        · rintro (h2 | ⟨h2, h3 | h3⟩)
          · exact Or.inl (Or.inr h2)
          · exact Or.inl (Or.inl ⟨h2, h3.symm⟩)
          · exact Or.inr ⟨h2, h3⟩
      · simp only [hsala, hs, visitadas]
        constructor
        · rintro ((⟨h2, h3⟩ | h2) | h2)
          · exact Or.inr ⟨h2, _, hself _, h3.symm⟩
          · exact Or.inl h2
          · exact Or.inr h2
        · rintro (h2 | h2)
          · exact Or.inl (Or.inr h2)
          · exact Or.inr h2
      · simp only [hsala, hs, visitadas]
        constructor
        · rintro ((⟨h2, h3⟩ | h2) | h2)
          · exact Or.inr ⟨h2, _, hself _, h3.symm⟩
          · exact Or.inl h2
          · exact Or.inr h2
        · rintro (h2 | h2)
          · exact Or.inl (Or.inr h2)
          · exact Or.inr h2


theorem visitadas_head (sala : Sala) (avisos : List Aviso) (h : sala.ehNulo = false) :
    (visitadas sala avisos).head? = some sala := by
  induction avisos with
  | nil => cases sala <;> simp_all [visitadas, Sala.ehNulo]
  | cons a l ih =>
    cases sala with
    | nulo => cases h
    | no nome pista esq dir => cases a <;> simp_all [visitadas]

/-- The rooms visited by a run: the last one is the final room, and each one
after the first is a non-null exit of the one before. -/
theorem laco_visitadas (n : Nat) (s : Estado) (r : Resultado) (h : laco n s = some r)
    (hn : s.salaAtual.ehNulo = false) :
    (visitadas s.salaAtual r.avisos).getLast? = some r.estado.salaAtual ∧
    (visitadas s.salaAtual r.avisos).Chain' ehSaidaDe ∧
    r.estado.salaAtual.ehNulo = false := by
  induction n generalizing s r with
  | zero => simp [laco] at h
  | succ n ih =>
    rcases laco_succ_casos n s r h with ⟨m, s1, hp, rfl⟩ | ⟨a, s1, r1, hp, hl, rfl⟩
    · rcases passo_fim_casos s m s1 hp with ⟨hs, -, rfl⟩ |
        ⟨nome, pista, esq, dir, hs, -, -, rfl⟩ | ⟨nome, pista, esq, dir, hs, -, -, -, rfl⟩
      · rw [hs] at hn; cases hn
      · simp [hs, visitadas, Sala.ehNulo]
      · simp [hs, visitadas, Sala.ehNulo]
    · obtain ⟨nome, pista, esq, dir, hs, _, _, _, _, hc⟩ := passo_continua_casos s a s1 hp
      rcases hc with ⟨rfl, hsala, hnn, _⟩ | ⟨rfl, hsala, hnn, _⟩ | ⟨rfl, hsala, _⟩ | ⟨rfl, hsala, _⟩
      · obtain ⟨h1, h2, h3⟩ := ih s1 r1 hl (by rw [hsala]; exact hnn)
        have hh := visitadas_head esq r1.avisos hnn
        rw [hsala] at h1 h2
        simp only [hs, visitadas, Sala.esq]
        refine ⟨?_, ?_, h3⟩
        · rw [List.getLast?_cons, h1]; rfl
        · rw [List.chain'_cons']
          refine ⟨?_, h2⟩
          intro y hy
          rw [hh] at hy
          simp only [Option.mem_def, Option.some.injEq] at hy
          subst hy
          exact ⟨hnn, Or.inl rfl⟩
      · obtain ⟨h1, h2, h3⟩ := ih s1 r1 hl (by rw [hsala]; exact hnn)
        have hh := visitadas_head dir r1.avisos hnn
        rw [hsala] at h1 h2
        simp only [hs, visitadas, Sala.dir]
        refine ⟨?_, ?_, h3⟩
        · rw [List.getLast?_cons, h1]; rfl
        · rw [List.chain'_cons']
          refine ⟨?_, h2⟩
          intro y hy
          rw [hh] at hy
          simp only [Option.mem_def, Option.some.injEq] at hy
          subst hy
          exact ⟨hnn, Or.inr rfl⟩
      · have := ih s1 r1 hl (by rw [hsala]; exact hn)
        rw [hsala, hs] at this
        simpa [hs, visitadas] using this
      · have := ih s1 r1 hl (by rw [hsala]; exact hn)
        rw [hsala, hs] at this
        simpa [hs, visitadas] using this

/-- Two strictly ascending lists with the same texts are the same list. -/
theorem ascendente_unico (l1 l2 : List Texto) (h1 : Ascendente l1) (h2 : Ascendente l2)
    (hm : ∀ t, t ∈ l1 ↔ t ∈ l2) : l1 = l2 := by
  haveI : IsAntisymm Texto naoAcima := ⟨naoAcima_antisymm⟩
  have hperm : l1.Perm l2 :=
    (List.perm_ext_iff_of_nodup (nodup_of_ascendente l1 h1) (nodup_of_ascendente l2 h2)).2 hm
  exact List.eq_of_perm_of_sorted (r := naoAcima) hperm
    (List.Pairwise.imp (fun h => Int.le_of_lt h) h1)
    (List.Pairwise.imp (fun h => Int.le_of_lt h) h2)

theorem ascendente_ordenadoSemRepeticao (textos : List Texto) :
    Ascendente (ordenadoSemRepeticao textos) := by
  rw [← exibirPistas_eq_ordenadoSemRepeticao]
  exact ascendente_inserirPistas textos .nulo (by simp [exibirPistas, Ascendente])

theorem mem_ordenadoSemRepeticao (textos : List Texto) (t : Texto) :
    t ∈ ordenadoSemRepeticao textos ↔ t ∈ textos := by
  rw [← exibirPistas_eq_ordenadoSemRepeticao, mem_exibirPistas_inserirPistas]
  simp [exibirPistas]

/-- The count of `contarPistasSuspeito` depends on the ledger only through its
in-order sequence. -/
theorem contarPistasSuspeito_congr (sc : Bool) (tab : Tabela) (alvo : Texto)
    (r1 r2 : PistaNode) (h : exibirPistas r1 = exibirPistas r2) :
    contarPistasSuspeito sc tab alvo r1 = contarPistasSuspeito sc tab alvo r2 := by
  by_cases hex : ∃ c ∈ exibirPistas r1, encontrarSuspeito sc tab c = none
  · rw [(contarPistasSuspeito_eq_none sc tab alvo r1).2 hex,
      (contarPistasSuspeito_eq_none sc tab alvo r2).2 (h ▸ hex)]
  · have hf : ∀ c ∈ exibirPistas r1,
        encontrarSuspeito sc tab c = some ((encontrarSuspeito sc tab c).getD none) := by
      intro c hc
      cases he : encontrarSuspeito sc tab c with
      | none => exact absurd ⟨c, hc, he⟩ hex
      | some x => rfl
    rw [contarPistasSuspeito_eq sc tab alvo r1 _ hf,
      contarPistasSuspeito_eq sc tab alvo r2 _ (h ▸ hf), h]

/-! ## Leaving the loop -/

/-- The rooms visited by a finished run are the current rooms of its iterations. -/
theorem mem_visitadas_laco (n : Nat) (s : Estado) (r : Resultado) (h : laco n s = some r)
    (sala : Sala) :
    sala ∈ visitadas s.salaAtual r.avisos ↔
      s.salaAtual.ehNulo = false ∧
        ∃ j s1, j ≤ r.avisos.length ∧ estadoApos j s = some s1 ∧ s1.salaAtual = sala := by
  induction n generalizing s r with
  | zero => simp [laco] at h
  | succ n ih =>
    rcases laco_succ_casos n s r h with ⟨m, s1, hp, rfl⟩ | ⟨a, s1, r1, hp, hl, rfl⟩
    · simp only [List.length_nil, Nat.le_zero_eq]
      cases hs : s.salaAtual with
      | nulo => simp [visitadas, Sala.ehNulo]
      | no nome pista esq dir =>
        simp only [visitadas, List.mem_singleton, Sala.ehNulo, true_and]
        constructor
        · rintro rfl
          exact ⟨0, s, rfl, rfl, hs⟩
        · rintro ⟨j, s2, rfl, h2, h3⟩
          simp only [estadoApos, Option.some.injEq] at h2
          rw [← h3, ← h2, hs]
    · obtain ⟨nome, pista, esq, dir, hs, _, _, _, _, hc⟩ := passo_continua_casos s a s1 hp
      have hn : s.salaAtual.ehNulo = false := by rw [hs]; rfl
      have hsuc : ∀ k s2, estadoApos (k + 1) s = some s2 ↔ estadoApos k s1 = some s2 := by
        intro k s2
        simp [estadoApos, hp]
      have hstep : (∃ j s2, j ≤ (a :: r1.avisos).length ∧ estadoApos j s = some s2 ∧
            s2.salaAtual = sala) ↔
          sala = s.salaAtual ∨
            ∃ j s2, j ≤ r1.avisos.length ∧ estadoApos j s1 = some s2 ∧ s2.salaAtual = sala := by
        constructor
        · rintro ⟨j, s2, hj, h2, h3⟩
          cases j with
          | zero =>
            simp only [estadoApos, Option.some.injEq] at h2
            exact Or.inl (by rw [← h3, h2])
          | succ k =>
            exact Or.inr ⟨k, s2, by simpa using hj, (hsuc k s2).1 h2, h3⟩
        · rintro (rfl | ⟨j, s2, hj, h2, h3⟩)
          · exact ⟨0, s, by simp, rfl, rfl⟩
          · exact ⟨j + 1, s2, by simpa using hj, (hsuc j s2).2 h2, h3⟩
      have hih := ih s1 r1 hl
      rw [hstep]
      simp only [hn, true_and]
      rcases hc with ⟨rfl, hsala, hnn, _⟩ | ⟨rfl, hsala, hnn, _⟩ | ⟨rfl, hsala, _⟩ | ⟨rfl, hsala, _⟩
      · have h1 : s1.salaAtual.ehNulo = false := by rw [hsala]; exact hnn
        simp only [h1, true_and] at hih
        rw [← hih, hsala, hs]
        simp [visitadas, Sala.esq]
      · have h1 : s1.salaAtual.ehNulo = false := by rw [hsala]; exact hnn
        simp only [h1, true_and] at hih
        rw [← hih, hsala, hs]
        simp [visitadas, Sala.dir]
      · have h1 : s1.salaAtual.ehNulo = false := by rw [hsala]; exact hn
        simp only [h1, true_and] at hih
        rw [← hih, hsala, hs]
        simp only [visitadas]
        constructor
        · exact Or.inr
        · rintro (rfl | h2)
          · exact mem_visitadas_self _ _ rfl
          · exact h2
      · have h1 : s1.salaAtual.ehNulo = false := by rw [hsala]; exact hn
        simp only [h1, true_and] at hih
        rw [← hih, hsala, hs]
        simp only [visitadas]
        constructor
        · exact Or.inr
        · rintro (rfl | h2)
          · exact mem_visitadas_self _ _ rfl
          · exact h2

/-- The iteration at a room with an exit when the option read is `s` or `S`. -/
theorem passo_sair (nome pista : Texto) (esq dir : Sala) (raiz : PistaNode)
    (opcao c : Nat) (ws resto : List Nat) (hc : c = 115 ∨ c = 83)
    (hws : ∀ w ∈ ws, isspace w = true) (hsaida : (esq.ehNulo && dir.ehNulo) = false) :
    passo ⟨.no nome pista esq dir, raiz, opcao, ws ++ c :: resto⟩ =
      .fim .saiu ⟨.no nome pista esq dir, coletarPista pista raiz, c, resto⟩ := by
  have hsp : isspace c = false := by rcases hc with rfl | rfl <;> decide
  have h1 : ¬ (c = 101 ∨ c = 69) := by rcases hc with rfl | rfl <;> decide
  have h2 : ¬ (c = 100 ∨ c = 68) := by rcases hc with rfl | rfl <;> decide
  simp [passo, scanfChar_comando ws c resto opcao hws hsp, hsaida, hc, h1, h2]

/-- The state that the run on the input `x` reaches in the mansion of `main`
cannot leave the loop. -/
theorem preso_no_hall : Preso ⟨mansao, inserirPistas .nulo [pegadas], 120, []⟩ := by
  refine ⟨rfl, rfl, rfl, ?_⟩
  simp [opcaoRejeitada]

/-- The iteration at a room with an exit when the input has ended. -/
theorem passo_fim_da_entrada (nome pista : Texto) (esq dir : Sala) (raiz : PistaNode)
    (opcao : Nat) (entrada : List Nat) (hsaida : (esq.ehNulo && dir.ehNulo) = false)
    (hfim : fimDaEntrada entrada) :
    ((opcao = 115 ∨ opcao = 83) →
      passo ⟨.no nome pista esq dir, raiz, opcao, entrada⟩ =
        .fim .saiu ⟨.no nome pista esq dir, coletarPista pista raiz, opcao, []⟩) ∧
    (¬ (opcao = 115 ∨ opcao = 83) →
      ∃ a s1, passo ⟨.no nome pista esq dir, raiz, opcao, entrada⟩ = .continua a s1 ∧
        s1.raizPistas = coletarPista pista raiz ∧ s1.opcao = opcao ∧ s1.entrada = []) := by
  have hsc := scanfChar_fim entrada opcao hfim
  constructor
  · intro hc
    have h1 : ¬ (opcao = 101 ∨ opcao = 69) := by omega
    have h2 : ¬ (opcao = 100 ∨ opcao = 68) := by omega
    simp [passo, hsc, hsaida, hc, h1, h2]
  · intro hc
    cases hp : passo ⟨.no nome pista esq dir, raiz, opcao, entrada⟩ with
    | continua a s1 =>
      obtain ⟨_, _, _, _, hs, _, h3, h4, h5, _⟩ := passo_continua_casos _ a s1 hp
      simp only [Sala.no.injEq] at hs
      obtain ⟨_, rfl, _, _⟩ := hs
      rw [hsc] at h4 h5
      exact ⟨a, s1, rfl, h3, h4, h5⟩
    | fim m s1 =>
      rcases passo_fim_casos _ m s1 hp with ⟨hs, -, -⟩ | ⟨_, _, _, _, hs, hf, -, -⟩ |
        ⟨_, _, _, _, hs, -, -, ho, h1⟩
      · cases hs
      · simp only [Sala.no.injEq] at hs
        obtain ⟨_, _, rfl, rfl⟩ := hs
        rw [hsaida] at hf; cases hf
      · rw [h1, hsc] at ho
        exact absurd ho hc

/-- How a finished run was left, by the final room. -/
theorem laco_motivo (n : Nat) (s : Estado) (r : Resultado) (h : laco n s = some r) :
    (r.motivo = .becoSemSaida ↔ r.estado.salaAtual.ehFolha = true) ∧
    (r.motivo = .saiu →
      r.estado.salaAtual.ehNulo = false ∧ r.estado.salaAtual.ehFolha = false) ∧
    (r.motivo = .semSala ↔ r.estado.salaAtual = .nulo) := by
  refine laco_invariante (fun _ => True)
    (fun m s1 => (m = .becoSemSaida ↔ s1.salaAtual.ehFolha = true) ∧
      (m = .saiu → s1.salaAtual.ehNulo = false ∧ s1.salaAtual.ehFolha = false) ∧
      (m = .semSala ↔ s1.salaAtual = .nulo)) (fun _ _ _ _ _ => trivial) ?_ n s r trivial h
  intro s m s1 _ hp
  rcases passo_fim_casos s m s1 hp with ⟨hs, rfl, rfl⟩ |
    ⟨nome, pista, esq, dir, hs, hf, rfl, rfl⟩ | ⟨nome, pista, esq, dir, hs, hf, rfl, -, rfl⟩
  · simp [hs, Sala.ehFolha]
  · have hn : (Sala.no nome pista esq dir).ehNulo = false := rfl
    simp [hs, Sala.ehFolha, hn, hf]
  · have hn : (Sala.no nome pista esq dir).ehNulo = false := rfl
    simp [hs, Sala.ehFolha, hn, hf]

/-- The last iteration of a finished run: the state it started from is the
one reached after the iterations that printed the notices. -/
theorem laco_ultima_iteracao (n : Nat) (s : Estado) (r : Resultado) (h : laco n s = some r) :
    ∃ s1, estadoApos r.avisos.length s = some s1 ∧ passo s1 = .fim r.motivo r.estado := by
  induction n generalizing s r with
  | zero => simp [laco] at h
  | succ n ih =>
    rcases laco_succ_casos n s r h with ⟨m, s1, hp, rfl⟩ | ⟨a, s1, r1, hp, hl, rfl⟩
    · exact ⟨s, rfl, hp⟩
    · obtain ⟨s2, h1, h2⟩ := ih s1 r1 hl
      exact ⟨s2, by simp [estadoApos, hp, h1], h2⟩

/-! ## The three levels -/

/-- The iteration of the level Aventureiro is the iteration of the level Mestre. -/
theorem passoComPistas_eq (s : Estado) : passoComPistas s = passo s := rfl

theorem lacoComPistas_eq (n : Nat) (s : Estado) : lacoComPistas n s = laco n s := by
  induction n generalizing s with
  | zero => rfl
  | succ n ih =>
    simp only [lacoComPistas, laco, passoComPistas_eq]
    cases passo s with
    | fim m s1 => rfl
    | continua a s1 => simp only [ih]

theorem mesmaForma_ehNulo (sala : Sala) (salaN : Novato.Sala)
    (h : mesmaForma sala salaN = true) : sala.ehNulo = salaN.ehNulo := by
  cases sala <;> cases salaN <;> simp_all [mesmaForma, Sala.ehNulo, Novato.Sala.ehNulo]

theorem passo_corresponde (s : Estado) (sn : Novato.Estado) (h : Corresponde s sn) :
    PassoCorresponde (passo s) (Novato.passo sn) := by
  obtain ⟨sala, raiz, opcao, entrada⟩ := s
  obtain ⟨salaN, opcaoN, entradaN⟩ := sn
  obtain ⟨hf, ho, he⟩ := h
  simp only at hf ho he
  subst ho he
  cases sala with
  | nulo =>
    cases salaN with
    | nulo => exact ⟨rfl, rfl, rfl, rfl⟩
    | no _ _ _ => simp [mesmaForma] at hf
  | no nome pista esq dir =>
    cases salaN with
    | nulo => simp [mesmaForma] at hf
    | no nomeN esqN dirN =>
      have hf0 := hf
      simp only [mesmaForma, Bool.and_eq_true] at hf
      have h1 := mesmaForma_ehNulo esq esqN hf.1
      have h2 := mesmaForma_ehNulo dir dirN hf.2
      simp only [passo, Novato.passo, h1, h2]
      split_ifs <;>
        simp_all [PassoCorresponde, Corresponde, mesmaForma]


theorem laco_corresponde (n : Nat) (s : Estado) (sn : Novato.Estado) (h : Corresponde s sn) :
    ResultadoCorresponde (laco n s) (Novato.laco n sn) := by
  induction n generalizing s sn with
  | zero => exact trivial
  | succ n ih =>
    have hp := passo_corresponde s sn h
    simp only [laco, Novato.laco]
    cases h1 : passo s with
    | fim m s1 =>
      cases h2 : Novato.passo sn with
      | fim mn sn1 =>
        rw [h1, h2] at hp
        exact ⟨hp.1, rfl, hp.2⟩
      | continua an sn1 => rw [h1, h2] at hp; exact hp.elim
    | continua a s1 =>
      cases h2 : Novato.passo sn with
      | fim mn sn1 => rw [h1, h2] at hp; exact hp.elim
      | continua an sn1 =>
        rw [h1, h2] at hp
        obtain ⟨rfl, hc⟩ := hp
        have := ih s1 sn1 hc
        cases h3 : laco n s1 with
        | none =>
          cases h4 : Novato.laco n sn1 with
          | none => simp only [h3, h4]; exact trivial
          | some rn => rw [h3, h4] at this; exact this.elim
        | some r =>
          cases h4 : Novato.laco n sn1 with
          | none => rw [h3, h4] at this; exact this.elim
          | some rn =>
            rw [h3, h4] at this
            obtain ⟨hm, ha, hc1⟩ := this
            simp only [h3, h4]
            exact ⟨hm, by simp [ha], hc1⟩

/-- The final room of a finished run is the room reached by its moves. -/
theorem laco_seguir (n : Nat) (s : Estado) (r : Resultado) (h : laco n s = some r) :
    r.estado.salaAtual = seguir s.salaAtual r.avisos := by
  induction n generalizing s r with
  | zero => simp [laco] at h
  | succ n ih =>
    rcases laco_succ_casos n s r h with ⟨m, s1, hp, rfl⟩ | ⟨a, s1, r1, hp, hl, rfl⟩
    · rcases passo_fim_casos s m s1 hp with ⟨-, -, rfl⟩ | ⟨_, _, _, _, -, -, -, rfl⟩ |
        ⟨_, _, _, _, -, -, -, -, rfl⟩ <;> rfl
    · have h1 := ih s1 r1 hl
      obtain ⟨nome, pista, esq, dir, hs, _, _, _, _, hc⟩ := passo_continua_casos s a s1 hp
      rcases hc with ⟨rfl, hsala, _⟩ | ⟨rfl, hsala, _⟩ | ⟨rfl, hsala, _⟩ | ⟨rfl, hsala, _⟩ <;>
        simp only [seguir, h1, hsala, hs, Sala.esq, Sala.dir]

/-- The final room of a finished run of the level Novato is the room reached
by its moves. -/
theorem laco_seguirNovato (n : Nat) (sn : Novato.Estado) (rn : Novato.Resultado)
    (h : Novato.laco n sn = some rn) :
    rn.estado.atual = seguirNovato sn.atual rn.avisos := by
  induction n generalizing sn rn with
  | zero => simp [Novato.laco] at h
  | succ n ih =>
    obtain ⟨salaN, opcaoN, entradaN⟩ := sn
    simp only [Novato.laco] at h
    cases hp : Novato.passo ⟨salaN, opcaoN, entradaN⟩ with
    | fim m s1 =>
      rw [hp] at h
      simp only [Option.some.injEq] at h
      subst h
      cases salaN with
      | nulo =>
        simp only [Novato.passo, Novato.Passo.fim.injEq] at hp
        rw [← hp.2]; rfl
      | no nome esq dir =>
        simp only [Novato.passo] at hp
        split_ifs at hp <;> simp only [Novato.Passo.fim.injEq, reduceCtorEq] at hp <;>
          rw [← hp.2] <;> rfl
    | continua a s1 =>
      rw [hp] at h
      cases hl : Novato.laco n s1 with
      | none => simp [hl] at h
      | some r1 =>
        simp only [hl, Option.some.injEq] at h
        subst h
        have h1 := ih s1 r1 hl
        cases salaN with
        | nulo => simp [Novato.passo] at hp
        | no nome esq dir =>
          simp only [Novato.passo] at hp
          split_ifs at hp <;> simp only [Novato.Passo.continua.injEq, reduceCtorEq] at hp <;>
            obtain ⟨rfl, rfl⟩ := hp <;>
            simpa [seguirNovato, Novato.Sala.esq, Novato.Sala.dir] using h1

theorem mesmaForma_semPistas (sala : Sala) : mesmaForma sala (semPistas sala) = true := by
  induction sala with
  | nulo => rfl
  | no nome pista esq dir ihe ihd => simp [mesmaForma, semPistas, ihe, ihd]

theorem semPistas_ehNulo (sala : Sala) : (semPistas sala).ehNulo = sala.ehNulo := by
  cases sala <;> rfl

theorem seguirNovato_semPistas (sala : Sala) (avisos : List Aviso) :
    seguirNovato (semPistas sala) avisos = semPistas (seguir sala avisos) := by
  have hesq : ∀ x : Sala, (semPistas x).esq = semPistas x.esq := by
    intro x; cases x <;> rfl
  have hdir : ∀ x : Sala, (semPistas x).dir = semPistas x.dir := by
    intro x; cases x <;> rfl
  induction avisos generalizing sala with
  | nil => rfl
  | cons a l ih => cases a <;> simp only [seguirNovato, seguir, hesq, hdir, ih]

/-- The runs of the levels Mestre and Novato on trees of the same shape. -/
theorem explorarSalas_novato (n : Nat) (mapa : Sala) (mapaN : Novato.Sala) (raiz : PistaNode)
    (opcao : Nat) (entrada : List Nat) (hf : mesmaForma mapa mapaN = true) :
    (explorarSalas n mapa raiz opcao entrada = none ↔
      Novato.explorarSalas n mapaN opcao entrada = none) ∧
    (∀ r rn, explorarSalas n mapa raiz opcao entrada = some r →
      Novato.explorarSalas n mapaN opcao entrada = some rn →
      r.motivo = rn.motivo ∧ r.avisos = rn.avisos ∧ r.estado.opcao = rn.estado.opcao ∧
      r.estado.entrada = rn.estado.entrada ∧
      mesmaForma r.estado.salaAtual rn.estado.atual = true ∧
      r.estado.salaAtual = seguir mapa r.avisos ∧
      rn.estado.atual = seguirNovato mapaN r.avisos) := by
  have hc := laco_corresponde n ⟨mapa, raiz, opcao, entrada⟩ ⟨mapaN, opcao, entrada⟩
    ⟨hf, rfl, rfl⟩
  simp only [explorarSalas, Novato.explorarSalas]
  cases h1 : laco n ⟨mapa, raiz, opcao, entrada⟩ with
  | none =>
    cases h2 : Novato.laco n ⟨mapaN, opcao, entrada⟩ with
    | none => simp
    | some rn => rw [h1, h2] at hc; exact hc.elim
  | some r =>
    cases h2 : Novato.laco n ⟨mapaN, opcao, entrada⟩ with
    | none => rw [h1, h2] at hc; exact hc.elim
    | some rn =>
      rw [h1, h2] at hc
      obtain ⟨hm, ha, hforma, ho, he⟩ := hc
      refine ⟨by simp, ?_⟩
      intro r0 rn0 e1 e2
      simp only [Option.some.injEq] at e1 e2
      subst e1 e2
      have hs := laco_seguir n _ r h1
      have hsn := laco_seguirNovato n _ rn h2
      exact ⟨hm, ha, ho, he, hforma, hs, by rw [ha]; exact hsn⟩

/-- The run of the level Novato on the tree without the clues. -/
theorem explorarSalas_semPistas (n : Nat) (mapa : Sala) (raiz : PistaNode) (opcao : Nat)
    (entrada : List Nat) :
    Novato.explorarSalas n (semPistas mapa) opcao entrada =
      (explorarSalas n mapa raiz opcao entrada).map
        (fun r => ⟨r.motivo, ⟨semPistas r.estado.salaAtual, r.estado.opcao, r.estado.entrada⟩,
          r.avisos⟩) := by
  obtain ⟨h0, h1⟩ := explorarSalas_novato n mapa (semPistas mapa) raiz opcao entrada
    (mesmaForma_semPistas mapa)
  cases hr : explorarSalas n mapa raiz opcao entrada with
  | none => simpa using h0.1 hr
  | some r =>
    cases hn : Novato.explorarSalas n (semPistas mapa) opcao entrada with
    | none => rw [h0.2 hn] at hr; cases hr
    | some rn =>
      obtain ⟨hm, ha, ho, he, -, hs, hsn⟩ := h1 r rn hr hn
      rw [seguirNovato_semPistas, ← hs] at hsn
      obtain ⟨mn, ⟨an, opn, en⟩, avn⟩ := rn
      simp only at hm ha ho he hsn
      subst hm ha ho he hsn
      rfl

/-- The suspect found after a series of associations is the one of the last
association of the text. -/
theorem encontrarSuspeito_inserirPares_ultimo (sc : Bool) (pares : List (Texto × Texto))
    (tab0 tab : Tabela) (q : Texto) (par : Texto × Texto)
    (h : inserirPares sc tab0 pares = some tab)
    (hf : pares.reverse.find? (fun x => decide (x.1 = q)) = some par) :
    encontrarSuspeito sc tab q = some (some par.2) := by
  induction pares generalizing tab0 with
  | nil => simp at hf
  | cons p1 resto ih =>
    obtain ⟨p, s⟩ := p1
    unfold inserirPares at h
    cases h1 : inserirNaHash sc tab0 p s with
    | none => simp [h1] at h
    | some t =>
      simp only [h1] at h
      rw [List.reverse_cons, List.find?_append] at hf
      cases hr : resto.reverse.find? (fun x => decide (x.1 = q)) with
      | some par1 =>
        rw [hr] at hf
        simp only [Option.or, Option.some.injEq] at hf
        subst hf
        exact ih t h hr
      | none =>
        rw [hr] at hf
        simp only [Option.or, List.find?_cons, List.find?_nil] at hf
        have hnot : q ∉ resto.map Prod.fst := by
          intro hq
          obtain ⟨x, hx, hxq⟩ := List.mem_map.1 hq
          have := List.find?_eq_none.1 hr x (List.mem_reverse.2 hx)
          simp [hxq] at this
        by_cases hpq : p = q
        · simp only [hpq, decide_True, Option.some.injEq] at hf
          subst hf
          rw [encontrarSuspeito_inserirPares_of_not_mem sc resto t tab q h hnot,
            encontrarSuspeito_inserirNaHash sc tab0 t p s q h1, if_pos hpq]
        · simp [hpq] at hf

/-! ## The claims -/

/-- C1: for every finite sequence of clue texts inserted one by one with
`inserirPista` starting from the empty ledger, the in-order traversal of the
resulting tree (what `exibirPistas` prints) is strictly ascending under
`strcmp`, hence contains no text twice. -/
theorem C1_em_ordem_estritamente_crescente (textos : List Texto) :
    (exibirPistas (inserirPistas .nulo textos)).Pairwise (fun a b => strcmp a b < 0) ∧
    (exibirPistas (inserirPistas .nulo textos)).Nodup := by
  have h := ascendente_inserirPistas textos .nulo (by simp [exibirPistas, Ascendente])
  exact ⟨h, nodup_of_ascendente _ h⟩

/-- C2: for every sequence of clue texts inserted with `inserirPista` from the
empty ledger, a text occurs in the in-order traversal if and only if it is one
of the inserted texts; the traversal is the sorted, deduplicated list of the
inserted texts, and its length (the number of nodes) is the number of distinct
texts inserted. -/
theorem C2_em_ordem_e_ordenado_sem_repeticao (textos : List Texto) :
    (∀ t, t ∈ exibirPistas (inserirPistas .nulo textos) ↔ t ∈ textos) ∧
    exibirPistas (inserirPistas .nulo textos) = ordenadoSemRepeticao textos ∧
    (exibirPistas (inserirPistas .nulo textos)).length = textos.toFinset.card ∧
    (inserirPistas .nulo textos).tamanho = textos.toFinset.card := by
  have hlen : ∀ r : PistaNode, (exibirPistas r).length = r.tamanho := by
    intro r
    induction r with
    | nulo => rfl
    | no k e d ihe ihd => simp [exibirPistas, PistaNode.tamanho, ihe, ihd]; omega
  have heq := exibirPistas_eq_ordenadoSemRepeticao textos
  have hcard : (exibirPistas (inserirPistas .nulo textos)).length = textos.toFinset.card := by
    rw [heq, ordenadoSemRepeticao, List.length_insertionSort, List.card_toFinset]
  refine ⟨fun t => ?_, heq, hcard, ?_⟩
  · rw [mem_exibirPistas_inserirPistas]; simp [exibirPistas]
  · rw [← hlen, hcard]

/-- C3: for every ledger built by `inserirPista` from the empty ledger and every
text already present in it, inserting that text again returns the same tree,
so the number of entries and the in-order sequence are unchanged. -/
theorem C3_reinserir_nao_altera (textos : List Texto) (t : Texto)
    (h : t ∈ exibirPistas (inserirPistas .nulo textos)) :
    inserirPista (inserirPistas .nulo textos) t = inserirPistas .nulo textos ∧
    (inserirPista (inserirPistas .nulo textos) t).tamanho = (inserirPistas .nulo textos).tamanho ∧
    exibirPistas (inserirPista (inserirPistas .nulo textos) t) =
      exibirPistas (inserirPistas .nulo textos) := by
  have heq := inserirPista_of_mem (inserirPistas .nulo textos) t
    (ascendente_inserirPistas textos .nulo (by simp [exibirPistas, Ascendente])) h
  rw [heq]
  exact ⟨rfl, rfl, rfl⟩

/-- Witness of C3: the texts "b", "a", "c" and the text "a" inserted again. -/
theorem C3_reinserir_nao_altera_witness :
    [97] ∈ exibirPistas (inserirPistas .nulo [[98], [97], [99]]) ∧
    inserirPista (inserirPistas .nulo [[98], [97], [99]]) [97] =
      .no [98] (.no [97] .nulo .nulo) (.no [99] .nulo .nulo) :=
  ⟨by decide, (C3_reinserir_nao_altera [[98], [97], [99]] [97] (by decide)).1.trans (by decide)⟩

/-- C4 fails as stated: `inserirPista` called with the empty text on the empty
ledger returns a ledger with one node, whose in-order sequence holds the empty
text. -/
theorem C4_inserirPista_aceita_texto_vazio :
    inserirPista .nulo [] = .no [] .nulo .nulo ∧ inserirPista .nulo [] ≠ .nulo ∧
    [] ∈ exibirPistas (inserirPista .nulo []) := by
  decide

/-- C4 as amended: the empty text is rejected by the caller.  The clue
collection of `explorarSalas` leaves every ledger unchanged when the clue of the
room has length 0, and a run of `explorarSalas` started with a ledger without
the empty text ends with a ledger without the empty text. -/
theorem C4_coleta_rejeita_texto_vazio (pista : Texto) (raiz : PistaNode) :
    (strlen pista = 0 → coletarPista pista raiz = raiz) ∧
    (∀ n mapa opcao entrada r, [] ∉ exibirPistas raiz →
      explorarSalas n mapa raiz opcao entrada = some r →
      [] ∉ exibirPistas r.estado.raizPistas) := by
  constructor
  · intro h; simp [coletarPista, h]
  · intro n mapa opcao entrada r h0 hr
    refine laco_invariante (fun s => [] ∉ exibirPistas s.raizPistas)
      (fun _ s => [] ∉ exibirPistas s.raizPistas) ?_ ?_ n _ r h0 hr
    · intro s a s1 hs hp
      obtain ⟨_, pista, _, _, _, h1, _⟩ := (passo_raizPistas s).1 a s1 hp
      rw [h1]; exact vazio_fora_de_coletarPista pista _ hs
    · intro s m s1 hs hp
      rcases (passo_raizPistas s).2 m s1 hp with ⟨_, h1, _⟩ | ⟨_, pista, _, _, _, h1, _⟩
      · rw [h1]; exact hs
      · rw [h1]; exact vazio_fora_de_coletarPista pista _ hs

/-- Witness of C4 as amended: the empty clue on a ledger of one entry, and the run
from the room "Cozinha" (which has no clue) on the option `e`. -/
theorem C4_coleta_rejeita_texto_vazio_witness :
    (strlen [] = 0 ∧ coletarPista [] (.no [97] .nulo .nulo) = .no [97] .nulo .nulo) ∧
    ([] ∉ exibirPistas .nulo ∧
      explorarSalas 2 cozinha .nulo 0 [101] =
        some ⟨.becoSemSaida, ⟨salaDeJantar, .no taca .nulo .nulo, 101, []⟩, [.moveuEsquerda]⟩ ∧
      [] ∉ exibirPistas (PistaNode.no taca .nulo .nulo)) :=
  ⟨⟨rfl, (C4_coleta_rejeita_texto_vazio [] (.no [97] .nulo .nulo)).1 rfl⟩,
   by decide, by decide,
   (C4_coleta_rejeita_texto_vazio [] .nulo).2 2 cozinha 0 [101]
     ⟨.becoSemSaida, ⟨salaDeJantar, .no taca .nulo .nulo, 101, []⟩, [.moveuEsquerda]⟩
     (by decide) (by decide)⟩

/-- C5: for every index built from the empty table by `inserirNaHash` over a
list of (clue, suspect) pairs with pairwise distinct clue texts,
`encontrarSuspeito` returns, for each clue of the list, exactly the suspect
paired with it, whatever the buckets of the clues. -/
theorem C5_consulta_devolve_o_suspeito (sc : Bool) (pares : List (Texto × Texto))
    (tab : Tabela) (h : inserirPares sc tabelaVazia pares = some tab)
    (hnd : (pares.map Prod.fst).Nodup) (p s : Texto) (hps : (p, s) ∈ pares) :
    encontrarSuspeito sc tab p = some (some s) :=
  encontrarSuspeito_inserirPares_of_mem sc pares tabelaVazia tab h hnd p s hps

/-- Witness of C5: the clues "ab" and "ba" fall into the same bucket and each is
answered with its own suspect. -/
theorem C5_consulta_devolve_o_suspeito_witness :
    funcaoHash true [97, 98] = funcaoHash true [98, 97] ∧
    ([([97, 98], [88]), ([98, 97], [89])].map Prod.fst).Nodup ∧
    (inserirPares true tabelaVazia [([97, 98], [88]), ([98, 97], [89])]).bind
      (fun tab => encontrarSuspeito true tab [97, 98]) = some (some [88]) ∧
    (inserirPares true tabelaVazia [([97, 98], [88]), ([98, 97], [89])]).bind
      (fun tab => encontrarSuspeito true tab [98, 97]) = some (some [89]) := by
  refine ⟨by decide, by decide, ?_⟩
  cases h : inserirPares true tabelaVazia [([97, 98], [88]), ([98, 97], [89])] with
  | none =>
    have hs : (inserirPares true tabelaVazia [([97, 98], [88]), ([98, 97], [89])]).isSome = true := by
      decide
    rw [h] at hs
    cases hs
  | some tab =>
    exact ⟨C5_consulta_devolve_o_suspeito true _ tab h (by decide) [97, 98] [88] (by decide),
      C5_consulta_devolve_o_suspeito true _ tab h (by decide) [98, 97] [89] (by decide)⟩

/-- C6 at the failing input: where `char` is signed, the text "ã" (bytes 195,
163) was never associated in the table of `main`, `funcaoHash` gives it the
index -30, and the lookup accesses `tabela[-30]`, outside the table, instead of
returning `NULL`; where `char` is unsigned the same lookup returns `NULL`. -/
theorem C6_consulta_fora_da_tabela :
    [195, 163] ∉ gabarito.map Prod.fst ∧
    tabelaSuspeitos true = some (tabelaDoJogo true) ∧
    funcaoHash true [195, 163] = -30 ∧
    encontrarSuspeito true (tabelaDoJogo true) [195, 163] = none ∧
    encontrarSuspeito false (tabelaDoJogo false) [195, 163] = some none :=
  ⟨by decide, tabelaSuspeitos_eq true, by decide, by decide, by decide⟩

/-- C7: for every ledger tree, index and accused name, `contarPistasSuspeito`
returns the number of entries of the in-order sequence of the ledger whose
`encontrarSuspeito` result is present and textually equal to the accused name
(`f` names the results of the lookups; an entry whose result is `NULL` counts
0); the count is undefined exactly when the lookup of some entry of the ledger
leaves the table, so every entry is examined. -/
theorem C7_contagem_sobre_todo_o_caderno (sc : Bool) (tab : Tabela) (alvo : Texto)
    (raiz : PistaNode) :
    (∀ f : Texto → Option Texto,
      (∀ c ∈ exibirPistas raiz, encontrarSuspeito sc tab c = some (f c)) →
      contarPistasSuspeito sc tab alvo raiz =
        some ((exibirPistas raiz).countP (fun c => apontaPara alvo (f c)))) ∧
    (contarPistasSuspeito sc tab alvo raiz = none ↔
      ∃ c ∈ exibirPistas raiz, encontrarSuspeito sc tab c = none) :=
  ⟨fun f hf => contarPistasSuspeito_eq sc tab alvo raiz f hf,
   contarPistasSuspeito_eq_none sc tab alvo raiz⟩

/-- Witness of C7: the table of `main` and the ledger of the clues "Pegadas de
lama no chão", "x" (not associated) and "Terra revirada recente": two entries
point to "Jardineiro". -/
theorem C7_contagem_sobre_todo_o_caderno_witness :
    (∀ c ∈ exibirPistas (inserirPistas .nulo [pegadas, [120], terra]),
      encontrarSuspeito true (tabelaDoJogo true) c =
        some (if c = [120] then none else some jardineiro)) ∧
    contarPistasSuspeito true (tabelaDoJogo true) jardineiro
      (inserirPistas .nulo [pegadas, [120], terra]) = some 2 :=
  ⟨by decide,
   ((C7_contagem_sobre_todo_o_caderno true (tabelaDoJogo true) jardineiro
      (inserirPistas .nulo [pegadas, [120], terra])).1
      (fun c => if c = [120] then none else some jardineiro) (by decide)).trans (by decide)⟩

/-- C8: for every ledger, index and accused name, with `q` the count of
`contarPistasSuspeito`, `verificarSuspeitoFinal` prints the count `q` and the
verdict CULPADO if and only if `q` is at least 2, and the verdict INOCENTE (por
falta de provas) otherwise; a count of exactly 1 gives INOCENTE and a count of
exactly 2 gives CULPADO. -/
theorem C8_veredito_pelo_limiar (sc : Bool) (raiz : PistaNode) (tab : Tabela)
    (acusado : Texto) (q : Nat) (h : contarPistasSuspeito sc tab acusado raiz = some q) :
    (verificarSuspeitoFinal sc raiz tab acusado = some (q, .culpado) ↔ 2 ≤ q) ∧
    (verificarSuspeitoFinal sc raiz tab acusado = some (q, .inocente) ↔ q < 2) ∧
    (q = 1 → verificarSuspeitoFinal sc raiz tab acusado = some (1, .inocente)) ∧
    (q = 2 → verificarSuspeitoFinal sc raiz tab acusado = some (2, .culpado)) := by
  rw [verificarSuspeitoFinal_eq sc raiz tab acusado q h]
  refine ⟨?_, ?_, ?_, ?_⟩
  · split_ifs with h2 <;> simp [h2]
  · split_ifs with h2 <;> simp [h2]; omega
  · intro h1; subst h1; rfl
  · intro h2; subst h2; rfl

/-- Witness of C8: in the table of `main`, the ledger of "Pegadas de lama no
chão" and "Terra revirada recente" has count 2 for "Jardineiro": CULPADO. -/
theorem C8_veredito_pelo_limiar_witness :
    contarPistasSuspeito true (tabelaDoJogo true) jardineiro
      (inserirPistas .nulo [pegadas, terra]) = some 2 ∧
    verificarSuspeitoFinal true (inserirPistas .nulo [pegadas, terra]) (tabelaDoJogo true)
      jardineiro = some (2, .culpado) :=
  ⟨by decide,
   (C8_veredito_pelo_limiar true (inserirPistas .nulo [pegadas, terra]) (tabelaDoJogo true)
      jardineiro 2 (by decide)).2.2.2 rfl⟩

/-- C9 fails as stated: in the mansion and table of `main`, the run on the
options `e`, `d` follows the single path Hall de Entrada, Sala de Estar, Jardim
de Inverno; it collects "Pegadas de lama no chão" and "Terra revirada recente",
both associated with "Jardineiro", and accusing "Jardineiro" gives the count 2
and the verdict CULPADO. -/
theorem C9_caminho_com_veredito_culpado :
    explorarSalas 3 mansao .nulo 0 [101, 100] = some runEsquerdaDireita ∧
    runEsquerdaDireita.estado.salaAtual = jardimDeInverno ∧
    exibirPistas runEsquerdaDireita.estado.raizPistas = [pegadas, relogio, terra] ∧
    tabelaSuspeitos true = some (tabelaDoJogo true) ∧
    encontrarSuspeito true (tabelaDoJogo true) pegadas = some (some jardineiro) ∧
    encontrarSuspeito true (tabelaDoJogo true) terra = some (some jardineiro) ∧
    verificarSuspeitoFinal true runEsquerdaDireita.estado.raizPistas (tabelaDoJogo true)
      jardineiro = some (2, .culpado) ∧
    verificarSuspeitoFinal false runEsquerdaDireita.estado.raizPistas (tabelaDoJogo false)
      jardineiro = some (2, .culpado) :=
  ⟨by decide, rfl, by decide, tabelaSuspeitos_eq true, by decide, by decide, by decide,
   by decide⟩

/-- C9 as amended: in the mansion and table of `main`, a finished run of
`explorarSalas` yields a ledger on which the accused reaches the verdict CULPADO
exactly when the run ends in the room "Jardim de Inverno" and the accused is
"Jardineiro", and the count is then 2; for every other final room and every
other accused name the count is at most 1 and the verdict is INOCENTE. -/
theorem C9_culpado_somente_no_jardim (sc : Bool) (n opcao : Nat) (entrada : List Nat)
    (r : Resultado) (tab : Tabela) (htab : tabelaSuspeitos sc = some tab)
    (h : explorarSalas n mansao .nulo opcao entrada = some r) (acusado : Texto) :
    ∃ q, contarPistasSuspeito sc tab acusado r.estado.raizPistas = some q ∧
      verificarSuspeitoFinal sc r.estado.raizPistas tab acusado =
        some (q, if acusado = jardineiro ∧ r.estado.salaAtual = jardimDeInverno
          then .culpado else .inocente) ∧
      (if acusado = jardineiro ∧ r.estado.salaAtual = jardimDeInverno then q = 2 else q ≤ 1) := by
  have ht : tab = tabelaDoJogo sc :=
    Option.some.inj (htab.symm.trans (tabelaSuspeitos_eq sc))
  subst ht
  have hx := run_na_mansao n opcao entrada r h
  obtain ⟨q, hv, hq⟩ := veredito_nas_situacoes sc _ hx acusado
  refine ⟨q, ?_, hv, hq⟩
  cases hc : contarPistasSuspeito sc (tabelaDoJogo sc) acusado r.estado.raizPistas with
  | none => simp [verificarSuspeitoFinal, hc] at hv
  | some q1 =>
    rw [verificarSuspeitoFinal_eq sc _ _ acusado q1 hc] at hv
    simp only [Option.some.injEq, Prod.mk.injEq] at hv
    rw [hv.1]

/-- Witness of C9 as amended: the run on the options `e`, `d` and the accused
"Mordomo". -/
theorem C9_culpado_somente_no_jardim_witness :
    tabelaSuspeitos true = some (tabelaDoJogo true) ∧
    explorarSalas 3 mansao .nulo 0 [101, 100] = some runEsquerdaDireita ∧
    ∃ q, contarPistasSuspeito true (tabelaDoJogo true) mordomo
        runEsquerdaDireita.estado.raizPistas = some q ∧
      verificarSuspeitoFinal true runEsquerdaDireita.estado.raizPistas (tabelaDoJogo true)
        mordomo =
        some (q, if mordomo = jardineiro ∧ runEsquerdaDireita.estado.salaAtual = jardimDeInverno
          then .culpado else .inocente) ∧
      (if mordomo = jardineiro ∧ runEsquerdaDireita.estado.salaAtual = jardimDeInverno
        then q = 2 else q ≤ 1) :=
  ⟨tabelaSuspeitos_eq true, by decide,
   C9_culpado_somente_no_jardim true 3 0 [101, 100] runEsquerdaDireita (tabelaDoJogo true)
     (tabelaSuspeitos_eq true) (by decide) mordomo⟩

/-- C10: in the mansion and table of `main`, the commands left, left (each the
option `e` or `E`, after any white space, whatever follows in the input) end
the run at the room without exits "Biblioteca" with the in-order sequence of
the ledger exactly "Livro de venenos aberto", "Pegadas de lama no chão",
"Relógio parado às 10h"; accusing "Governanta" gives count 1 and accusing
"Mordomo" gives count 1, both with the verdict INOCENTE (por falta de
provas). -/
theorem C10_esquerda_esquerda_termina_na_biblioteca (sc : Bool) (n opcao e1 e2 : Nat)
    (ws1 ws2 resto : List Nat) (hn : 3 ≤ n)
    (h1 : e1 = 101 ∨ e1 = 69) (h2 : e2 = 101 ∨ e2 = 69)
    (hw1 : ∀ w ∈ ws1, isspace w = true) (hw2 : ∀ w ∈ ws2, isspace w = true) :
    ∃ tab r, tabelaSuspeitos sc = some tab ∧
      explorarSalas n mansao .nulo opcao (ws1 ++ e1 :: (ws2 ++ e2 :: resto)) = some r ∧
      r.motivo = .becoSemSaida ∧
      r.estado.salaAtual = biblioteca ∧
      biblioteca = criarSala [66, 105, 98, 108, 105, 111, 116, 101, 99, 97] livro ∧
      exibirPistas r.estado.raizPistas = [livro, pegadas, relogio] ∧
      contarPistasSuspeito sc tab governanta r.estado.raizPistas = some 1 ∧
      verificarSuspeitoFinal sc r.estado.raizPistas tab governanta = some (1, .inocente) ∧
      contarPistasSuspeito sc tab mordomo r.estado.raizPistas = some 1 ∧
      verificarSuspeitoFinal sc r.estado.raizPistas tab mordomo = some (1, .inocente) := by
  have hl : exibirPistas (inserirPistas .nulo [pegadas, relogio, livro]) =
      [livro, pegadas, relogio] := by decide
  have hcg : ∀ b, contarPistasSuspeito b (tabelaDoJogo b) governanta
      (inserirPistas .nulo [pegadas, relogio, livro]) = some 1 := by decide
  have hvg : ∀ b, verificarSuspeitoFinal b (inserirPistas .nulo [pegadas, relogio, livro])
      (tabelaDoJogo b) governanta = some (1, .inocente) := by decide
  have hcm : ∀ b, contarPistasSuspeito b (tabelaDoJogo b) mordomo
      (inserirPistas .nulo [pegadas, relogio, livro]) = some 1 := by decide
  have hvm : ∀ b, verificarSuspeitoFinal b (inserirPistas .nulo [pegadas, relogio, livro])
      (tabelaDoJogo b) mordomo = some (1, .inocente) := by decide
  exact ⟨tabelaDoJogo sc, _, tabelaSuspeitos_eq sc,
    esquerda_esquerda n opcao e1 e2 ws1 ws2 resto hn h1 h2 hw1 hw2, rfl, rfl, rfl, hl,
    hcg sc, hvg sc, hcm sc, hvm sc⟩

/-- Witness of C10: the input `e`, newline, `E`, newline. -/
theorem C10_esquerda_esquerda_termina_na_biblioteca_witness :
    (3 ≤ 3 ∧ ((101 : Nat) = 101 ∨ (101 : Nat) = 69) ∧ ((69 : Nat) = 101 ∨ (69 : Nat) = 69) ∧
      (∀ w ∈ ([] : List Nat), isspace w = true) ∧ (∀ w ∈ [10], isspace w = true)) ∧
    ∃ tab r, tabelaSuspeitos true = some tab ∧
      explorarSalas 3 mansao .nulo 0 ([] ++ 101 :: ([10] ++ 69 :: [10])) = some r ∧
      r.motivo = .becoSemSaida ∧
      r.estado.salaAtual = biblioteca ∧
      biblioteca = criarSala [66, 105, 98, 108, 105, 111, 116, 101, 99, 97] livro ∧
      exibirPistas r.estado.raizPistas = [livro, pegadas, relogio] ∧
      contarPistasSuspeito true tab governanta r.estado.raizPistas = some 1 ∧
      verificarSuspeitoFinal true r.estado.raizPistas tab governanta = some (1, .inocente) ∧
      contarPistasSuspeito true tab mordomo r.estado.raizPistas = some 1 ∧
      verificarSuspeitoFinal true r.estado.raizPistas tab mordomo = some (1, .inocente) :=
  ⟨⟨by decide, by decide, by decide, by decide, by decide⟩,
   C10_esquerda_esquerda_termina_na_biblioteca true 3 0 101 69 [] [10] [10] (by decide)
     (by decide) (by decide) (by decide) (by decide)⟩

/-- C11: for every room without a left (respectively right) exit that has the
other exit, the iteration of `explorarSalas` on the command left (option `e`
or `E`; respectively right, `d` or `D`) stays in the loop with the same current
room and prints the notice of the blocked path. -/
theorem C11_caminho_bloqueado_mantem_a_sala (nome pista : Texto) (saida : Sala)
    (raiz : PistaNode) (opcao c : Nat) (ws resto : List Nat)
    (hws : ∀ w ∈ ws, isspace w = true) (hsaida : saida.ehNulo = false) :
    ((c = 101 ∨ c = 69) →
      passo ⟨.no nome pista .nulo saida, raiz, opcao, ws ++ c :: resto⟩ =
        .continua .caminhoBloqueado
          ⟨.no nome pista .nulo saida, coletarPista pista raiz, c, resto⟩) ∧
    ((c = 100 ∨ c = 68) →
      passo ⟨.no nome pista saida .nulo, raiz, opcao, ws ++ c :: resto⟩ =
        .continua .caminhoBloqueado
          ⟨.no nome pista saida .nulo, coletarPista pista raiz, c, resto⟩) :=
  ⟨fun hc => passo_esquerda_bloqueada nome pista saida raiz opcao c ws resto hc hws hsaida,
   fun hc => passo_direita_bloqueada nome pista saida raiz opcao c ws resto hc hws hsaida⟩

/-- Witness of C11: a room whose only exit is "Biblioteca" to the right, on the
input blank, `E`. -/
theorem C11_caminho_bloqueado_mantem_a_sala_witness :
    ((∀ w ∈ [32], isspace w = true) ∧ biblioteca.ehNulo = false ∧ ((69 : Nat) = 101 ∨ (69 : Nat) = 69)) ∧
    passo ⟨.no [72] [] .nulo biblioteca, .nulo, 0, [32] ++ 69 :: [10]⟩ =
      .continua .caminhoBloqueado ⟨.no [72] [] .nulo biblioteca, coletarPista [] .nulo, 69, [10]⟩ :=
  ⟨⟨by decide, rfl, by decide⟩,
   (C11_caminho_bloqueado_mantem_a_sala [72] [] biblioteca .nulo 0 69 [32] [10] (by decide) rfl).1
     (by decide)⟩

/-- C12 fails as stated: in the mansion of `main` the input `x` is rejected in
the first iteration; the input has then ended, `opcao` still holds `x`, every
later iteration rejects it again in the same state, and no number of
iterations ends the run. -/
theorem C12_entrada_esgotada_nao_termina :
    passo ⟨mansao, .nulo, 0, [120]⟩ =
      .continua .opcaoInvalida ⟨mansao, inserirPistas .nulo [pegadas], 120, []⟩ ∧
    passo ⟨mansao, inserirPistas .nulo [pegadas], 120, []⟩ =
      .continua .opcaoInvalida ⟨mansao, inserirPistas .nulo [pegadas], 120, []⟩ ∧
    ¬ ∃ n r, explorarSalas n mansao .nulo 0 [120] = some r := by
  refine ⟨by decide, by decide, ?_⟩
  rintro ⟨n, r, h⟩
  have hp : passo ⟨mansao, .nulo, 0, [120]⟩ =
      .continua .opcaoInvalida ⟨mansao, inserirPistas .nulo [pegadas], 120, []⟩ := by decide
  have := laco_none_of_continua _ _ _ hp (fun k => preso_nunca_termina k _ preso_no_hall) n
  rw [explorarSalas, this] at h
  cases h

/-- C12 as amended: for every finite room tree, ledger and input, a run of
`explorarSalas` either ends within (levels of the tree) + (bytes of the input)
+ 1 iterations, or reaches a state in which the input has ended while the
option held in `opcao` is rejected at the current room, and then never ends.
Whenever the run ends, the number of its iterations (one more than the notices
printed) is the accepted moves plus the rejected commands plus one, the
accepted moves are at most the depth of the tree, and so the iterations are at
most the depth plus the rejected commands plus one. -/
theorem C12_iteracoes_limitadas (mapa : Sala) (raiz : PistaNode) (opcao : Nat)
    (entrada : List Nat) :
    ((∃ r, explorarSalas (mapa.niveis + entrada.length + 1) mapa raiz opcao entrada = some r) ∨
     (∃ j s1, estadoApos j ⟨mapa, raiz, opcao, entrada⟩ = some s1 ∧ Preso s1 ∧
        ∀ n, explorarSalas n mapa raiz opcao entrada = none)) ∧
    (∀ n r, explorarSalas n mapa raiz opcao entrada = some r →
      (r.avisos.length + 1 ≤ n ∧
        explorarSalas (r.avisos.length + 1) mapa raiz opcao entrada = some r ∧
        explorarSalas r.avisos.length mapa raiz opcao entrada = none) ∧
      r.avisos.length + 1 =
        r.avisos.countP Aviso.ehMovimento + r.avisos.countP Aviso.ehRejeicao + 1 ∧
      r.avisos.countP Aviso.ehMovimento ≤ mapa.profundidade ∧
      r.avisos.length + 1 ≤ mapa.profundidade + r.avisos.countP Aviso.ehRejeicao + 1) := by
  constructor
  · exact termina_ou_fica_preso (mapa.niveis + entrada.length) ⟨mapa, raiz, opcao, entrada⟩
      (le_refl _)
  · intro n r h
    have h1 := laco_iteracoes n _ r h
    have h2 := avisos_length r.avisos
    have h3 := movimentos_le_profundidade n _ r h
    simp only at h3
    exact ⟨h1, by omega, h3, by omega⟩

/-- Witness of C12 as amended: the input `e`, `x`, `e` in the mansion of `main`
ends after 4 iterations, with 2 accepted moves and 1 rejected command. -/
theorem C12_iteracoes_limitadas_witness :
    explorarSalas 7 mansao .nulo 0 [101, 120, 101] =
      some ⟨.becoSemSaida, ⟨biblioteca, inserirPistas .nulo [pegadas, relogio, livro], 101, []⟩,
        [.moveuEsquerda, .opcaoInvalida, .moveuEsquerda]⟩ ∧
    mansao.profundidade = 2 ∧
    explorarSalas 4 mansao .nulo 0 [101, 120, 101] =
      some ⟨.becoSemSaida, ⟨biblioteca, inserirPistas .nulo [pegadas, relogio, livro], 101, []⟩,
        [.moveuEsquerda, .opcaoInvalida, .moveuEsquerda]⟩ ∧
    explorarSalas 3 mansao .nulo 0 [101, 120, 101] = none :=
  ⟨by decide, by decide,
   ((C12_iteracoes_limitadas mansao .nulo 0 [101, 120, 101]).2 7
      ⟨.becoSemSaida, ⟨biblioteca, inserirPistas .nulo [pegadas, relogio, livro], 101, []⟩,
        [.moveuEsquerda, .opcaoInvalida, .moveuEsquerda]⟩ (by decide)).1.2⟩

/-- C13 fails as stated: in the mansion of `main` the input `e` ends while the
run is at "Sala de Estar", a room with exits; the iteration there goes on with
the option `e` left in `opcao` and moves to "Biblioteca", where the run ends
with three clues, whereas the input `e`, `s` ends the run at "Sala de Estar"
with two clues. -/
theorem C13_fim_da_entrada_nao_e_sair :
    passo ⟨salaDeEstar, inserirPistas .nulo [pegadas], 101, []⟩ =
      .continua .moveuEsquerda ⟨biblioteca, inserirPistas .nulo [pegadas, relogio], 101, []⟩ ∧
    explorarSalas 3 mansao .nulo 0 [101] =
      some ⟨.becoSemSaida, ⟨biblioteca, inserirPistas .nulo [pegadas, relogio, livro], 101, []⟩,
        [.moveuEsquerda, .moveuEsquerda]⟩ ∧
    explorarSalas 3 mansao .nulo 0 [101, 115] =
      some ⟨.saiu, ⟨salaDeEstar, inserirPistas .nulo [pegadas, relogio], 115, []⟩,
        [.moveuEsquerda]⟩ := by
  decide

/-- C13 as amended: `explorarSalas` does not test for the end of the input.
When `scanf` finds the end of the input at a room with an exit, `opcao` keeps
its value and the iteration goes on with it: the loop is left as by the exit
command (same way of leaving, same room, same ledger with the clue of the room
collected) exactly when that value is `s` or `S`; for every other value the
iteration stays in the loop, with `opcao` unchanged and no input left. -/
theorem C13_fim_da_entrada_repete_a_opcao (nome pista : Texto) (esq dir : Sala)
    (raiz : PistaNode) (opcao : Nat) (entrada : List Nat)
    (hsaida : (esq.ehNulo && dir.ehNulo) = false) (hfim : fimDaEntrada entrada) :
    ((opcao = 115 ∨ opcao = 83) →
      passo ⟨.no nome pista esq dir, raiz, opcao, entrada⟩ =
        .fim .saiu ⟨.no nome pista esq dir, coletarPista pista raiz, opcao, []⟩) ∧
    (¬ (opcao = 115 ∨ opcao = 83) →
      ∃ a s1, passo ⟨.no nome pista esq dir, raiz, opcao, entrada⟩ = .continua a s1 ∧
        s1.raizPistas = coletarPista pista raiz ∧ s1.opcao = opcao ∧ s1.entrada = []) ∧
    (∀ (c : Nat) (ws resto : List Nat), (c = 115 ∨ c = 83) → (∀ w ∈ ws, isspace w = true) →
      passo ⟨.no nome pista esq dir, raiz, opcao, ws ++ c :: resto⟩ =
        .fim .saiu ⟨.no nome pista esq dir, coletarPista pista raiz, c, resto⟩) :=
  ⟨(passo_fim_da_entrada nome pista esq dir raiz opcao entrada hsaida hfim).1,
   (passo_fim_da_entrada nome pista esq dir raiz opcao entrada hsaida hfim).2,
   fun c ws resto hc hws => passo_sair nome pista esq dir raiz opcao c ws resto hc hws hsaida⟩

/-- Witness of C13 as amended: "Sala de Estar" with a newline left in the input
and `S` left in `opcao`. -/
theorem C13_fim_da_entrada_repete_a_opcao_witness :
    (fimDaEntrada [10] ∧ ((83 : Nat) = 115 ∨ (83 : Nat) = 83)) ∧
    passo ⟨salaDeEstar, .nulo, 83, [10]⟩ =
      .fim .saiu ⟨salaDeEstar, coletarPista relogio .nulo, 83, []⟩ :=
  ⟨⟨by decide, by decide⟩,
   (C13_fim_da_entrada_repete_a_opcao salaDeEstar.nomeDe relogio biblioteca jardimDeInverno
      .nulo 83 [10] rfl (by decide)).1 (by decide)⟩

/-- C14: for the empty ledger (the null tree), every index and every accused
name, `contarPistasSuspeito` returns 0 and `verificarSuspeitoFinal` prints the
count 0 and the verdict INOCENTE (por falta de provas). -/
theorem C14_caderno_vazio (sc : Bool) (tab : Tabela) (acusado : Texto) :
    contarPistasSuspeito sc tab acusado .nulo = some 0 ∧
    verificarSuspeitoFinal sc .nulo tab acusado = some (0, .inocente) :=
  ⟨rfl, rfl⟩

/-- C15: for every room tree and input, in a finished run of `explorarSalas`
started with the empty ledger, the rooms visited form a way down from the
root to the final room (each one a non-null exit of the one before), the
in-order sequence of the final ledger is the sorted, deduplicated list of the
non-empty clue texts of the rooms visited, and the empty text is not in it
(the rooms visited are the current rooms of the iterations of the run); the
clue of a room is collected before any option is read, so the exit command
as first command leaves exactly the clue of the root when it is non-empty. -/
theorem C15_caderno_das_salas_visitadas (mapa : Sala) (opcao : Nat) :
    (∀ n entrada r, explorarSalas n mapa .nulo opcao entrada = some r →
      exibirPistas r.estado.raizPistas =
        ordenadoSemRepeticao (pistasVisitadas (visitadas mapa r.avisos)) ∧
      [] ∉ exibirPistas r.estado.raizPistas ∧
      (mapa.ehNulo = false →
        (visitadas mapa r.avisos).head? = some mapa ∧
        (visitadas mapa r.avisos).getLast? = some r.estado.salaAtual ∧
        (visitadas mapa r.avisos).Chain' ehSaidaDe) ∧
      (∀ sala, sala ∈ visitadas mapa r.avisos ↔
        mapa.ehNulo = false ∧ ∃ j s1, j ≤ r.avisos.length ∧
          estadoApos j ⟨mapa, .nulo, opcao, entrada⟩ = some s1 ∧ s1.salaAtual = sala) ∧
      (mapa.ehNulo = true → exibirPistas r.estado.raizPistas = [])) ∧
    (∀ n c ws resto, mapa.ehNulo = false → mapa.ehFolha = false → (c = 115 ∨ c = 83) →
      (∀ w ∈ ws, isspace w = true) →
      explorarSalas (n + 1) mapa .nulo opcao (ws ++ c :: resto) =
        some ⟨.saiu, ⟨mapa, coletarPista mapa.pistaDe .nulo, c, resto⟩, []⟩ ∧
      exibirPistas (coletarPista mapa.pistaDe .nulo) =
        if strlen mapa.pistaDe > 0 then [mapa.pistaDe] else []) := by
  constructor
  · intro n entrada r h
    have hasc := laco_ascendente n _ r h (by simp [exibirPistas, Ascendente])
    have hmem := mem_exibirPistas_laco n _ r h
    simp only [exibirPistas, List.not_mem_nil, false_or] at hmem
    refine ⟨?_, ?_, ?_, fun sala => mem_visitadas_laco n _ r h sala, ?_⟩
    · refine ascendente_unico _ _ hasc (ascendente_ordenadoSemRepeticao _) (fun t => ?_)
      rw [hmem, mem_ordenadoSemRepeticao]
    · rw [hmem, mem_pistasVisitadas]
      rintro ⟨h0, -⟩
      simp [strlen] at h0
    · intro hn
      obtain ⟨h1, h2, -⟩ := laco_visitadas n _ r h hn
      exact ⟨visitadas_head mapa r.avisos hn, h1, h2⟩
    · intro hn
      cases mapa with
      | nulo =>
        have : ∀ t, t ∉ exibirPistas r.estado.raizPistas := by
          intro t ht
          have := (hmem t).1 ht
          simp [visitadas, pistasVisitadas] at this
        exact List.eq_nil_iff_forall_not_mem.2 this
      | no _ _ _ _ => cases hn
  · intro n c ws resto hn hf hc hws
    cases mapa with
    | nulo => cases hn
    | no nome pista esq dir =>
      constructor
      · simp only [Sala.ehFolha] at hf
        simp only [explorarSalas, laco,
          passo_sair nome pista esq dir .nulo opcao c ws resto hc hws hf, Sala.pistaDe]
      · simp only [Sala.pistaDe, coletarPista]
        split_ifs <;> simp [inserirPista, exibirPistas]

/-- Witness of C15: the run on `e`, `x`, `d` in the mansion of `main` visits
"Hall de Entrada", "Sala de Estar" and "Jardim de Inverno". -/
theorem C15_caderno_das_salas_visitadas_witness :
    explorarSalas 4 mansao .nulo 0 [101, 120, 100] =
      some ⟨.becoSemSaida, ⟨jardimDeInverno, inserirPistas .nulo [pegadas, relogio, terra], 100, []⟩,
        [.moveuEsquerda, .opcaoInvalida, .moveuDireita]⟩ ∧
    visitadas mansao [.moveuEsquerda, .opcaoInvalida, .moveuDireita] =
      [mansao, salaDeEstar, jardimDeInverno] ∧
    exibirPistas (inserirPistas .nulo [pegadas, relogio, terra]) =
      ordenadoSemRepeticao (pistasVisitadas [mansao, salaDeEstar, jardimDeInverno]) :=
  ⟨by decide, by decide,
   ((C15_caderno_das_salas_visitadas mansao 0).1 4 [101, 120, 100]
      ⟨.becoSemSaida, ⟨jardimDeInverno, inserirPistas .nulo [pegadas, relogio, terra], 100, []⟩,
        [.moveuEsquerda, .opcaoInvalida, .moveuDireita]⟩ (by decide)).1⟩

/-- C16: for every state of the loop, an iteration whose command is rejected
(blocked path or invalid option) keeps the current room, and its ledger is the
one held when the command was read (the clue of the room collected); the next
iteration collects the clue of the same room again and that changes neither
the ledger nor its in-order sequence, whatever that iteration does next. -/
theorem C16_comando_rejeitado_mantem_o_caderno (s s1 : Estado) (a : Aviso)
    (hp : passo s = .continua a s1) (hr : a.ehRejeicao = true) :
    s1.salaAtual = s.salaAtual ∧
    s1.raizPistas = coletarPista s.salaAtual.pistaDe s.raizPistas ∧
    coletarPista s1.salaAtual.pistaDe s1.raizPistas = s1.raizPistas ∧
    exibirPistas (coletarPista s1.salaAtual.pistaDe s1.raizPistas) =
      exibirPistas s1.raizPistas ∧
    (∀ a2 s2, passo s1 = .continua a2 s2 → s2.raizPistas = s1.raizPistas) ∧
    (∀ m s2, passo s1 = .fim m s2 → s2.raizPistas = s1.raizPistas) := by
  obtain ⟨nome, pista, esq, dir, hs, _, hraiz, _, _, hc⟩ := passo_continua_casos s a s1 hp
  have hsala : s1.salaAtual = s.salaAtual := by
    rcases hc with ⟨rfl, _⟩ | ⟨rfl, _⟩ | ⟨_, h, _⟩ | ⟨_, h, _⟩
    · cases hr
    · cases hr
    · exact h
    · exact h
  have hidem : coletarPista s1.salaAtual.pistaDe s1.raizPistas = s1.raizPistas := by
    rw [hsala, hs, hraiz]
    exact coletarPista_idem pista _
  refine ⟨hsala, by rw [hraiz, hs]; rfl, hidem, by rw [hidem], ?_, ?_⟩
  · intro a2 s2 h2
    obtain ⟨_, pista2, _, _, hs2, _, hraiz2, _⟩ := passo_continua_casos s1 a2 s2 h2
    have h3 := hidem
    rw [hs2] at h3
    rw [hraiz2]
    exact h3
  · intro m s2 h2
    rcases (passo_raizPistas s1).2 m s2 h2 with ⟨_, h3, _⟩ | ⟨_, pista2, _, _, hs2, h3, _⟩
    · rw [h3]
    · have h4 := hidem
      rw [hs2] at h4
      rw [h3]
      exact h4

/-- Witness of C16: in "Sala de Estar" with the clue of "Hall de Entrada" in the
ledger, the invalid option `x`. -/
theorem C16_comando_rejeitado_mantem_o_caderno_witness :
    passo ⟨salaDeEstar, inserirPistas .nulo [pegadas], 0, [120]⟩ =
      .continua .opcaoInvalida ⟨salaDeEstar, inserirPistas .nulo [pegadas, relogio], 120, []⟩ ∧
    coletarPista relogio (inserirPistas .nulo [pegadas, relogio]) =
      inserirPistas .nulo [pegadas, relogio] :=
  ⟨by decide,
   (C16_comando_rejeitado_mantem_o_caderno ⟨salaDeEstar, inserirPistas .nulo [pegadas], 0, [120]⟩
      ⟨salaDeEstar, inserirPistas .nulo [pegadas, relogio], 120, []⟩ .opcaoInvalida
      (by decide) rfl).2.2.1⟩

/-- C17: for every two sequences of clue texts that are permutations of one
another, inserting them with `inserirPista` from the empty ledger yields the
same in-order sequence, and therefore the same result of
`contarPistasSuspeito` for every index and accused name. -/
theorem C17_ordem_de_insercao_indiferente (l1 l2 : List Texto) (h : l1.Perm l2) :
    exibirPistas (inserirPistas .nulo l1) = exibirPistas (inserirPistas .nulo l2) ∧
    ∀ sc tab acusado,
      contarPistasSuspeito sc tab acusado (inserirPistas .nulo l1) =
        contarPistasSuspeito sc tab acusado (inserirPistas .nulo l2) := by
  have heq : exibirPistas (inserirPistas .nulo l1) = exibirPistas (inserirPistas .nulo l2) := by
    refine ascendente_unico _ _
      (ascendente_inserirPistas l1 .nulo (by simp [exibirPistas, Ascendente]))
      (ascendente_inserirPistas l2 .nulo (by simp [exibirPistas, Ascendente])) (fun t => ?_)
    rw [mem_exibirPistas_inserirPistas, mem_exibirPistas_inserirPistas, h.mem_iff]
  exact ⟨heq, fun sc tab acusado => contarPistasSuspeito_congr sc tab acusado _ _ heq⟩

/-- Witness of C17: "Pegadas de lama no chão" and "Terra revirada recente"
inserted in the two orders give trees of different shape with the same
in-order sequence and the same count. -/
theorem C17_ordem_de_insercao_indiferente_witness :
    [pegadas, terra].Perm [terra, pegadas] ∧
    inserirPistas .nulo [pegadas, terra] ≠ inserirPistas .nulo [terra, pegadas] ∧
    exibirPistas (inserirPistas .nulo [pegadas, terra]) =
      exibirPistas (inserirPistas .nulo [terra, pegadas]) ∧
    contarPistasSuspeito true (tabelaDoJogo true) jardineiro (inserirPistas .nulo [pegadas, terra]) =
      contarPistasSuspeito true (tabelaDoJogo true) jardineiro
        (inserirPistas .nulo [terra, pegadas]) :=
  ⟨List.Perm.swap terra pegadas [], by decide,
   (C17_ordem_de_insercao_indiferente [pegadas, terra] [terra, pegadas]
      (List.Perm.swap terra pegadas [])).1,
   (C17_ordem_de_insercao_indiferente [pegadas, terra] [terra, pegadas]
      (List.Perm.swap terra pegadas [])).2 true (tabelaDoJogo true) jardineiro⟩

/-- C18: in the configuration of `main`, the non-empty clues planted in the
rooms of the mansion are six texts, and for each of them `encontrarSuspeito`
on the table of `main` returns a suspect, the one given to `inserirNaHash`
for that text. -/
theorem C18_toda_pista_plantada_tem_suspeito (sc : Bool) :
    tabelaSuspeitos sc = some (tabelaDoJogo sc) ∧
    mansao.pistas.filter (fun p => decide (strlen p > 0)) =
      [pegadas, relogio, livro, terra, taca, chave] ∧
    (∀ c ∈ mansao.pistas.filter (fun p => decide (strlen p > 0)),
      ∃ p ∈ gabarito, p.1 = c ∧
        encontrarSuspeito sc (tabelaDoJogo sc) c = some (some p.2)) ∧
    encontrarSuspeito sc (tabelaDoJogo sc) pegadas = some (some jardineiro) ∧
    encontrarSuspeito sc (tabelaDoJogo sc) terra = some (some jardineiro) ∧
    encontrarSuspeito sc (tabelaDoJogo sc) relogio = some (some mordomo) ∧
    encontrarSuspeito sc (tabelaDoJogo sc) taca = some (some mordomo) ∧
    encontrarSuspeito sc (tabelaDoJogo sc) livro = some (some governanta) ∧
    encontrarSuspeito sc (tabelaDoJogo sc) chave = some (some governanta) := by
  refine ⟨tabelaSuspeitos_eq sc, ?_⟩
  revert sc
  decide

/-- C19: for every room tree and input, a finished run of `explorarSalas` was
left through the room without exits if and only if the final room has neither
exit, and then the last iteration read nothing: the input and `opcao` are those
with which the run arrived at that room (a root without exits leaves the whole
input unread); it was left through the option `s` only at a room with at
least one exit. -/
theorem C19_beco_sem_saida_sem_leitura (mapa : Sala) (raiz : PistaNode) (opcao : Nat)
    (entrada : List Nat) :
    (∀ n r, explorarSalas n mapa raiz opcao entrada = some r →
      (r.motivo = .becoSemSaida ↔ r.estado.salaAtual.ehFolha = true) ∧
      (r.motivo = .saiu → r.estado.salaAtual.ehNulo = false ∧
        (r.estado.salaAtual.esq.ehNulo = false ∨ r.estado.salaAtual.dir.ehNulo = false)) ∧
      (r.motivo = .becoSemSaida →
        ∃ s1, estadoApos r.avisos.length ⟨mapa, raiz, opcao, entrada⟩ = some s1 ∧
          s1.salaAtual = r.estado.salaAtual ∧ r.estado.entrada = s1.entrada ∧
          r.estado.opcao = s1.opcao)) ∧
    (mapa.ehFolha = true → ∀ n,
      explorarSalas (n + 1) mapa raiz opcao entrada =
        some ⟨.becoSemSaida, ⟨mapa, coletarPista mapa.pistaDe raiz, opcao, entrada⟩, []⟩) := by
  constructor
  · intro n r h
    obtain ⟨h1, h2, -⟩ := laco_motivo n _ r h
    refine ⟨h1, ?_, ?_⟩
    · intro hm
      obtain ⟨hn, hf⟩ := h2 hm
      refine ⟨hn, ?_⟩
      cases hs : r.estado.salaAtual with
      | nulo => rw [hs] at hn; cases hn
      | no nome pista esq dir =>
        rw [hs] at hf
        simp only [Sala.ehFolha, Bool.and_eq_false_iff] at hf
        exact hf
    · intro hm
      obtain ⟨s1, h3, h4⟩ := laco_ultima_iteracao n _ r h
      refine ⟨s1, h3, ?_⟩
      rcases passo_fim_casos s1 _ _ h4 with ⟨-, h5, -⟩ | ⟨_, _, _, _, -, -, -, h5⟩ |
        ⟨_, _, _, _, -, -, h5, -⟩
      · rw [hm] at h5; cases h5
      · rw [h5]; exact ⟨rfl, rfl, rfl⟩
      · rw [hm] at h5; cases h5
  · intro hf n
    cases mapa with
    | nulo => cases hf
    | no nome pista esq dir =>
      simp only [Sala.ehFolha] at hf
      simp [explorarSalas, laco, passo, hf, Sala.pistaDe]

/-- Witness of C19: the run from "Biblioteca", a room without exits, with the
input `e` left unread. -/
theorem C19_beco_sem_saida_sem_leitura_witness :
    biblioteca.ehFolha = true ∧
    explorarSalas 1 biblioteca .nulo 0 [101] =
      some ⟨.becoSemSaida, ⟨biblioteca, coletarPista biblioteca.pistaDe .nulo, 0, [101]⟩, []⟩ :=
  ⟨rfl, (C19_beco_sem_saida_sem_leitura biblioteca .nulo 0 [101]).2 rfl 0⟩

/-- C20 at the failing input: where `char` is signed the two bytes 195, 163 of
the text "ã" are read as -61 and -93, their sum -154 has the remainder -30, and
both `inserirNaHash` and `encontrarSuspeito` then access `tabela[-30]`, outside
the table; where `char` is unsigned the index is 17.  The six clues of `main`
have their index inside the table on both kinds of platform. -/
theorem C20_indice_negativo :
    somaChars true 0 [195, 163] = -154 ∧
    funcaoHash true [195, 163] = -30 ∧
    posicao (funcaoHash true [195, 163]) = none ∧
    (inserirNaHash true tabelaVazia [195, 163] jardineiro).isNone = true ∧
    encontrarSuspeito true tabelaVazia [195, 163] = none ∧
    funcaoHash false [195, 163] = 17 ∧
    (∀ sc, ∀ p ∈ gabarito, 0 ≤ funcaoHash sc p.1 ∧ funcaoHash sc p.1 < 31) := by
  decide

/-- C21: for every index, after `inserirNaHash` associates a clue text (again
or for the first time) `encontrarSuspeito` returns for that text the suspect of
this most recent association, the new node being the head of the chain of its
bucket with the old chain behind it, and the lookup result of every other clue
text is unchanged; after a series of associations the suspect found for a
text is the one of its last association. -/
theorem C21_associacao_mais_recente (sc : Bool) (tab tab1 : Tabela) (p s : Texto)
    (h : inserirNaHash sc tab p s = some tab1) :
    encontrarSuspeito sc tab1 p = some (some s) ∧
    (∀ q, q ≠ p → encontrarSuspeito sc tab1 q = encontrarSuspeito sc tab q) ∧
    (∃ i, posicao (funcaoHash sc p) = some i ∧ tab1 i = .no p s (tab i) ∧
      ∀ j, j ≠ i → tab1 j = tab j) ∧
    (∀ (pares : List (Texto × Texto)) (tabN : Tabela) (q : Texto) (par : Texto × Texto),
      inserirPares sc tab1 pares = some tabN →
      ((p, s) :: pares).reverse.find? (fun x => decide (x.1 = q)) = some par →
      encontrarSuspeito sc tabN q = some (some par.2)) := by
  refine ⟨?_, ?_, ?_, ?_⟩
  · rw [encontrarSuspeito_inserirNaHash sc tab tab1 p s p h, if_pos rfl]
  · intro q hq
    rw [encontrarSuspeito_inserirNaHash sc tab tab1 p s q h, if_neg (Ne.symm hq)]
  · unfold inserirNaHash at h
    cases hp : posicao (funcaoHash sc p) with
    | none => simp [hp] at h
    | some i =>
      simp only [hp, Option.some.injEq] at h
      subst h
      exact ⟨i, rfl, by simp, fun j hj => by simp [hj]⟩
  · intro pares tabN q par hN hf
    refine encontrarSuspeito_inserirPares_ultimo sc ((p, s) :: pares) tab tabN q par ?_ hf
    simp only [inserirPares, h, hN]

/-- Witness of C21: in a table where "ab" has the suspect "X" and "ba", of the
same bucket, has "Y", associating "ab" with "Z" makes the lookup of "ab" give
"Z" and leaves the lookup of "ba" at "Y". -/
theorem C21_associacao_mais_recente_witness :
    inserirNaHash true tabelaComColisao [97, 98] [90] = some tabelaReassociada ∧
    funcaoHash true [97, 98] = funcaoHash true [98, 97] ∧
    encontrarSuspeito true tabelaComColisao [97, 98] = some (some [88]) ∧
    encontrarSuspeito true tabelaReassociada [97, 98] = some (some [90]) ∧
    encontrarSuspeito true tabelaReassociada [98, 97] = some (some [89]) :=
  ⟨rfl, by decide, by decide,
   (C21_associacao_mais_recente true tabelaComColisao tabelaReassociada [97, 98] [90] rfl).1,
   ((C21_associacao_mais_recente true tabelaComColisao tabelaReassociada [97, 98] [90]
      rfl).2.1 [98, 97] (by decide)).trans (by decide)⟩

/-- C22: for every room tree, ledger and input the three levels agree on
navigation.  The run of `explorarSalasComPistas` (Aventureiro) is the run of
`explorarSalas` (Mestre): same room, same way of leaving the loop, same ledger,
or both still running.  The run of `explorarSalas` of the level Novato on the
same tree without the clues, and on every tree of the same shape, ends when
the run of the level Mestre ends, in the same way, after the same notices, in
the room reached by the same moves. -/
theorem C22_os_tres_niveis_concordam (n : Nat) (mapa : Sala) (raiz : PistaNode)
    (opcao : Nat) (entrada : List Nat) :
    explorarSalasComPistas n mapa raiz opcao entrada =
      explorarSalas n mapa raiz opcao entrada ∧
    Novato.explorarSalas n (semPistas mapa) opcao entrada =
      (explorarSalas n mapa raiz opcao entrada).map
        (fun r => ⟨r.motivo, ⟨semPistas r.estado.salaAtual, r.estado.opcao, r.estado.entrada⟩,
          r.avisos⟩) ∧
    (∀ mapaN, mesmaForma mapa mapaN = true →
      (explorarSalas n mapa raiz opcao entrada = none ↔
        Novato.explorarSalas n mapaN opcao entrada = none) ∧
      (∀ r rn, explorarSalas n mapa raiz opcao entrada = some r →
        Novato.explorarSalas n mapaN opcao entrada = some rn →
        r.motivo = rn.motivo ∧ r.avisos = rn.avisos ∧ r.estado.opcao = rn.estado.opcao ∧
        r.estado.entrada = rn.estado.entrada ∧
        mesmaForma r.estado.salaAtual rn.estado.atual = true ∧
        r.estado.salaAtual = seguir mapa r.avisos ∧
        rn.estado.atual = seguirNovato mapaN r.avisos)) :=
  ⟨lacoComPistas_eq n ⟨mapa, raiz, opcao, entrada⟩,
   explorarSalas_semPistas n mapa raiz opcao entrada,
   fun mapaN hf => explorarSalas_novato n mapa mapaN raiz opcao entrada hf⟩

/-- Witness of C22: the options `d`, `d` in the mansions of `main` of the levels
Mestre and Novato end at the rooms "Porão" and "Porão Escuro", both reached by
two moves to the right and both without exits. -/
theorem C22_os_tres_niveis_concordam_witness :
    mesmaForma mansao Novato.mapa = true ∧
    explorarSalas 3 mansao .nulo 0 [100, 100] = some runDireitaDireita ∧
    Novato.explorarSalas 3 Novato.mapa 0 [100, 100] = some runDireitaDireitaNovato ∧
    explorarSalasComPistas 3 mansao .nulo 0 [100, 100] = some runDireitaDireita ∧
    (runDireitaDireita.motivo = runDireitaDireitaNovato.motivo ∧
      runDireitaDireita.avisos = runDireitaDireitaNovato.avisos ∧
      runDireitaDireita.estado.opcao = runDireitaDireitaNovato.estado.opcao ∧
      runDireitaDireita.estado.entrada = runDireitaDireitaNovato.estado.entrada ∧
      mesmaForma runDireitaDireita.estado.salaAtual runDireitaDireitaNovato.estado.atual = true ∧
      runDireitaDireita.estado.salaAtual = seguir mansao runDireitaDireita.avisos ∧
      runDireitaDireitaNovato.estado.atual = seguirNovato Novato.mapa runDireitaDireita.avisos) :=
  ⟨by decide, by decide, by decide,
   (C22_os_tres_niveis_concordam 3 mansao .nulo 0 [100, 100]).1.trans (by decide),
   ((C22_os_tres_niveis_concordam 3 mansao .nulo 0 [100, 100]).2.2 Novato.mapa (by decide)).2
     runDireitaDireita runDireitaDireitaNovato (by decide) (by decide)⟩

end DetectiveQuest
